import Mathlib

/-!
# Link preview cards: `internal/processing/status/preview_card.go`

A shallow embedding of `extractLastURL` and `FetchPreview`.

* A Go string is modelled by the list of its characters (`GoString`); the
  regular expression engine reads a string rune by rune, and every rune the
  pattern `https?://[a-zA-Z0-9./?=_-]+` can consume is an ASCII character.
* The collaborators outside the package (`url.ParseRequestURI`, `http.Get`,
  `goquery.NewDocumentFromReader`, `id.NewULIDFromTime`) are the fields of an
  environment `Env`; the GET requests that a call issues are recorded in the
  result.
* A parsed document is the list of its elements in document order, which is
  all that `Find`, `Each`, `Attr` and `Text` observe.
* Where a statement depends on what `url.ParseRequestURI` returns, this is a
  hypothesis on the environment (`ReportsScheme`), and `parseSelectorLink`
  gives its result on the links that the selector produces.
-/

set_option autoImplicit false

namespace PreviewCard

/-- A Go string, as the sequence of its characters. -/
abbrev GoString := List Char

/-! ## The URL selector -/

/-- The character class `[a-zA-Z0-9./?=_-]` of `urlRegex`. -/
def isUrlChar (c : Char) : Bool :=
  (decide ('a' ≤ c) && decide (c ≤ 'z')) ||
  (decide ('A' ≤ c) && decide (c ≤ 'Z')) ||
  (decide ('0' ≤ c) && decide (c ≤ '9')) ||
  c == '.' || c == '/' || c == '?' || c == '=' || c == '_' || c == '-'

/-- Match the literal `p` at the head of the input; the result is the rest of the input. -/
def lit : GoString → GoString → Option GoString
  | [], s => some s
  | _ :: _, [] => none
  | p :: ps, c :: cs => if p = c then lit ps cs else none

/-- The greedy repetition `[a-zA-Z0-9./?=_-]+` at the head of the input: the longest run of
class characters, which has to be non-empty, and the rest of the input. -/
def classPlus (s : GoString) : Option (GoString × GoString) :=
  let run := s.takeWhile isUrlChar
  if run.isEmpty then none else some (run, s.dropWhile isUrlChar)

/-- The part `://[a-zA-Z0-9./?=_-]+` of `urlRegex` at the head of the input. -/
def matchTail (s : GoString) : Option (GoString × GoString) :=
  (lit [':', '/', '/'] s).bind classPlus

/-- The pattern `https?://[a-zA-Z0-9./?=_-]+` anchored at the head of the input, with the
preference order of the engine: the greedy `s?` first tries to consume an `s` and falls back
to consuming nothing. The result is the matched text and the rest of the input. -/
def matchHere (s : GoString) : Option (GoString × GoString) :=
  match lit ['h', 't', 't', 'p'] s with
  | none => none
  | some r =>
    match (lit ['s'] r).bind matchTail with
    | some (run, rest) => some (['h', 't', 't', 'p', 's', ':', '/', '/'] ++ run, rest)
    | none =>
      match matchTail r with
      | some (run, rest) => some (['h', 't', 't', 'p', ':', '/', '/'] ++ run, rest)
      | none => none

/-- One execution of the pattern from the current position: the leftmost match, and the input
that follows it. -/
def findFirst : GoString → Option (GoString × GoString)
  | [] => none
  | c :: cs =>
    match matchHere (c :: cs) with
    | some r => some r
    | none => findFirst cs

/-- The loop of `FindAllString`: execute the pattern, deliver the match, continue from the end
of the match, stop when the pattern no longer matches. The first argument bounds the number of
iterations. -/
def findAllLoop : Nat → GoString → List GoString
  | 0, _ => []
  | n + 1, s =>
    match findFirst s with
    | none => []
    | some (m, rest) => m :: findAllLoop n rest

/-- The call `urlRegex.FindAllString(text, -1)`: all successive non-overlapping matches. A match
is never empty, so `text.length + 1` iterations exhaust the text. -/
def FindAllString (text : GoString) : List GoString :=
  findAllLoop (text.length + 1) text

/-- The function `extractLastURL`. -/
def extractLastURL (text : GoString) : GoString :=
  let ms := FindAllString text
  if h : ms = [] then [] else ms.getLast h

/-! ## Collaborators -/

/-- A Go `error` value: the text of its `Error()` method, and the dynamic type name and the
reflection rendering that `fmt` prints for it when it is the operand of a verb that is not
valid for it. -/
structure GoError where
  msg : GoString
  typeName : GoString
  repr : GoString
deriving DecidableEq, Repr

/-- The fields of `*url.URL` that the code or its contract mention. -/
structure URL where
  Scheme : GoString
  Host : GoString
deriving DecidableEq, Repr

/-- The fields of `*http.Response` that the code reads. -/
structure Response where
  StatusCode : Nat
  Status : GoString
  Body : GoString
deriving DecidableEq, Repr

/-- An element node of a parsed document: tag name, attributes in source order, and the
combined text content of the element and its descendants. -/
structure Element where
  tag : GoString
  attrs : List (GoString × GoString)
  text : GoString
deriving DecidableEq, Repr

/-- A parsed document (`*goquery.Document`): its elements in document order. -/
structure Document where
  elements : List Element
deriving DecidableEq, Repr

/-- A `*goquery.Selection`: the matched elements in document order. -/
abbrev Selection := List Element

/-- The selectors that occur in the code: a tag name (`meta`, `title`), or a tag name with an
attribute equality (`meta[name='description']`). -/
inductive Selector where
  | tag (name : GoString)
  | tagAttr (name key val : GoString)
deriving DecidableEq, Repr

/-- Whether an element satisfies a selector. -/
def Selector.holds : Selector → Element → Bool
  | .tag name, e => e.tag == name
  | .tagAttr name key val, e => e.tag == name && e.attrs.any (fun a => a.1 == key && a.2 == val)

/-- The method `Find` on a document: the elements that satisfy the selector, in document
order. -/
def Document.Find (doc : Document) (sel : Selector) : Selection :=
  doc.elements.filter sel.holds

/-- The lookup of an attribute on one element: its value and `true`, or the empty string and
`false` when the element has no such attribute. -/
def Element.Attr (e : Element) (key : GoString) : GoString × Bool :=
  match e.attrs.find? (fun a => a.1 == key) with
  | some a => (a.2, true)
  | none => ([], false)

/-- The method `Attr` on a selection: the attribute of the first element of the selection. -/
def Selection.Attr (s : Selection) (key : GoString) : GoString × Bool :=
  match s with
  | [] => ([], false)
  | e :: _ => e.Attr key

/-- The method `Text` on a selection: the combined text contents of all its elements. -/
def Selection.Text (s : Selection) : GoString :=
  (s.map Element.text).flatten

/-- Modelled from the spec: the type `gtsmodel.Card` is declared outside the source file; the
record has an identifier, the canonical URL and five optional strings that default to the
empty string. The field `Type` of the Go record is named `Type_`, since `Type` is reserved. -/
structure Card where
  ID : GoString := []
  URL : GoString := []
  Title : GoString := []
  Description : GoString := []
  Type_ : GoString := []
  Image : GoString := []
  ProviderName : GoString := []
deriving DecidableEq, Repr

/-- Modelled from the spec: the error type `gtserror.WithCode` is declared outside the source
file; an error of the one uniform classification, carrying the text of its cause. -/
structure WithCode where
  message : GoString
  code : Nat
deriving DecidableEq, Repr

/-- Modelled from the spec: the constructor `gtserror.NewErrorInternalError` is declared outside
the source file; it wraps a cause into the internal-error classification. -/
def NewErrorInternalError (cause : GoString) : WithCode :=
  ⟨cause, 500⟩

/-- What `fmt.Sprintf` writes for the verb `%w`: the verb is only valid in `fmt.Errorf`, so
`Sprintf` writes the bad-verb form with the type name and the reflection rendering of the
operand. -/
def sprintfW (e : GoError) : GoString :=
  "%!w(".toList ++ e.typeName ++ "=".toList ++ e.repr ++ ")".toList

/-- The collaborators of one call. -/
structure Env where
  ParseRequestURI : GoString → Except GoError URL
  Get : GoString → Except GoError Response
  NewDocumentFromReader : GoString → Except GoError Document
  NewULIDFromTime : Nat → GoString

/-- The outcome of a call: the pair that the Go function returns, and the URLs of the GET
requests that the call has issued, in order. -/
structure Result where
  card : Option Card
  err : Option WithCode
  requests : List GoString
deriving DecidableEq, Repr

/-! ## The metadata extractor -/

/-- The body of the callback passed to `Each`: one `meta` element updates the card. -/
def applyMeta (card : Card) (s : Element) : Card :=
  let property := (s.Attr "property".toList).1
  let content := (s.Attr "content".toList).1
  if property = "og:title".toList then { card with Title := content }
  else if property = "og:description".toList then { card with Description := content }
  else if property = "og:type".toList then { card with Type_ := content }
  else if property = "og:image".toList then { card with Image := content }
  else if property = "og:url".toList then
    (if content ≠ [] then { card with URL := content } else card)
  else if property = "og:site_name".toList then { card with ProviderName := content }
  else card

/-- The walk `doc.Find("meta").Each(...)`: the callback is applied to every `meta` element in
document order. -/
def walkMeta (card : Card) (doc : Document) : Card :=
  (doc.Find (.tag "meta".toList)).foldl applyMeta card

/-- The fallback for an empty title: the text of the `title` elements. -/
def titleFallback (card : Card) (doc : Document) : Card :=
  if card.Title = [] then { card with Title := (doc.Find (.tag "title".toList)).Text }
  else card

/-- The fallback for an empty description: the `content` attribute of
`meta[name='description']`, when the attribute exists. -/
def descriptionFallback (card : Card) (doc : Document) : Card :=
  if card.Description = [] then
    let r := Selection.Attr
      (doc.Find (.tagAttr "meta".toList "name".toList "description".toList)) "content".toList
    if r.2 then { card with Description := r.1 } else card
  else card

/-- The card built from a parsed document: lines 87 to 125 of the source. -/
def buildCard (link ulid : GoString) (doc : Document) : Card :=
  let card : Card := { URL := link, ID := ulid }
  let card := walkMeta card doc
  let card := titleFallback card doc
  descriptionFallback card doc

/-! ## The operation `FetchPreview` -/

/-- The function `FetchPreview`. -/
def FetchPreview (env : Env) (text : GoString) (now : Nat) : Result :=
  let link := extractLastURL text
  if link = [] then ⟨none, none, []⟩
  else
    match env.ParseRequestURI link with
    | .error err =>
      ⟨none, some (NewErrorInternalError ("invalid URL: ".toList ++ sprintfW err)), []⟩
    | .ok parsed =>
      if parsed.Scheme ≠ "http".toList ∧ parsed.Scheme ≠ "https".toList then
        ⟨none, some (NewErrorInternalError ("unsupported scheme: ".toList ++ parsed.Scheme)), []⟩
      else
        match env.Get link with
        | .error err =>
          ⟨none, some (NewErrorInternalError ("request failed: ".toList ++ sprintfW err)), [link]⟩
        | .ok resp =>
          if resp.StatusCode ≠ 200 then
            ⟨none, some (NewErrorInternalError ("unexpected status: ".toList ++ resp.Status)),
              [link]⟩
          else
            match env.NewDocumentFromReader resp.Body with
            | .error err =>
              ⟨none,
                some (NewErrorInternalError ("failed to parse HTML: ".toList ++ sprintfW err)),
                [link]⟩
            | .ok doc => ⟨some (buildCard link (env.NewULIDFromTime now) doc), none, [link]⟩

/-! ## Specification vocabulary -/

/-- The text `u` matches the URL pattern: `http://` or `https://` followed by one or more
characters of the class. -/
def IsUrlMatch (u : GoString) : Prop :=
  ∃ run : GoString, run ≠ [] ∧ (∀ c ∈ run, isUrlChar c = true) ∧
    (u = ['h', 't', 't', 'p', ':', '/', '/'] ++ run ∨
     u = ['h', 't', 't', 'p', 's', ':', '/', '/'] ++ run)

/-- The text contains a substring that matches the URL pattern. -/
def ContainsUrl (text : GoString) : Prop :=
  ∃ pre u post : GoString, text = pre ++ u ++ post ∧ IsUrlMatch u

/-- The text is empty or ends with a character outside the class. -/
def EndsOutsideClass (pre : GoString) : Prop :=
  ∀ c, pre.getLast? = some c → isUrlChar c = false

/-- The call reaches the metadata extractor with the document `doc`: the text has a link, the
link passes the validator, the GET request is answered with status 200, and the body parses to
`doc`. -/
def Fetches (env : Env) (text : GoString) (doc : Document) : Prop :=
  extractLastURL text ≠ [] ∧
  ∃ parsed resp, env.ParseRequestURI (extractLastURL text) = .ok parsed ∧
    (parsed.Scheme = "http".toList ∨ parsed.Scheme = "https".toList) ∧
    env.Get (extractLastURL text) = .ok resp ∧ resp.StatusCode = 200 ∧
    env.NewDocumentFromReader resp.Body = .ok doc

/-- The reading of "the last substring matching the pattern" by start positions: the result
occurs in the text, matches the pattern, and no substring that matches the pattern begins at a
later position. -/
def SelectsLastMatch (text : GoString) : Prop :=
  ∃ pre post, text = pre ++ extractLastURL text ++ post ∧ IsUrlMatch (extractLastURL text) ∧
    ∀ pre2 u2 post2, text = pre2 ++ u2 ++ post2 → IsUrlMatch u2 → pre2.length ≤ pre.length

/-- The value of the `property` attribute as the callback reads it: the empty string when the
attribute is absent. -/
def Element.property (e : Element) : GoString := (e.Attr "property".toList).1

/-- The value of the `content` attribute as the callback reads it: the empty string when the
attribute is absent. -/
def Element.content (e : Element) : GoString := (e.Attr "content".toList).1

/-- The `meta` elements of a document, in document order. -/
def Document.metas (doc : Document) : Selection := doc.Find (.tag "meta".toList)

/-- The `title` elements of a document, in document order. -/
def Document.titles (doc : Document) : Selection := doc.Find (.tag "title".toList)

/-- The elements selected by `meta[name='description']`, in document order. -/
def Document.descriptions (doc : Document) : Selection :=
  doc.Find (.tagAttr "meta".toList "name".toList "description".toList)

/-- The last element of a list that satisfies a test. -/
def lastWhere (p : Element → Bool) (ms : List Element) : Option Element :=
  (ms.filter p).getLast?

/-- The last `meta` element of the document whose `property` is `p`. -/
def lastMeta (doc : Document) (p : GoString) : Option Element :=
  lastWhere (fun e => e.property == p) doc.metas

/-- The last `meta` element of the document whose `property` is `og:url` and whose content is
not empty. -/
def lastNonEmptyOgUrl (doc : Document) : Option Element :=
  lastWhere (fun e => e.property == "og:url".toList && e.content != []) doc.metas

/-- The card before the walk: the link and the identifier, every other field empty. -/
def initialCard (link ulid : GoString) : Card := { URL := link, ID := ulid }

/-- The document contains two `og:title` elements with different content. -/
def HasTwoOgTitles (doc : Document) : Prop :=
  ∃ m1 m2, m1 ∈ doc.metas ∧ m2 ∈ doc.metas ∧ m1.property = "og:title".toList ∧
    m2.property = "og:title".toList ∧ m1.content ≠ m2.content

/-- The reading of last-write-wins for the title without the fallback: the title of the card is
the content of the last `og:title` element. -/
def TitleIsLastOgTitle (doc : Document) (card : Card) : Prop :=
  ∀ e, lastMeta doc "og:title".toList = some e → card.Title = e.content

/-- The reading of the fallback by a single element: the title of the card is the text content
of a `title` element of the document. -/
def TitleIsTitleElementText (doc : Document) (card : Card) : Prop :=
  ∃ t, t ∈ doc.titles ∧ card.Title = t.text

/-! ## Worked examples: collaborators and documents -/

/-- A response with status 200 and an empty body. -/
def okResponse : Response := ⟨200, "200 OK".toList, []⟩

/-- A response with status 404 whose body is irrelevant to the outcome. -/
def notFoundResponse : Response :=
  ⟨404, "404 Not Found".toList, "<meta property=og:title content=Hello>".toList⟩

/-- Collaborators for worked examples: every link parses to the scheme `http` and the host
`a.example`, every GET request is answered with `resp`, every body parses to `doc`, and every
identifier is `01`. -/
def exampleEnv (resp : Response) (doc : Document) : Env where
  ParseRequestURI := fun _ => .ok ⟨"http".toList, "a.example".toList⟩
  Get := fun _ => .ok resp
  NewDocumentFromReader := fun _ => .ok doc
  NewULIDFromTime := fun _ => "01".toList

/-- A `meta` element with a `property` and a `content` attribute. -/
def ogMeta (property content : String) : Element :=
  ⟨"meta".toList, [("property".toList, property.toList), ("content".toList, content.toList)], []⟩

/-- A `meta` element with a `name` and a `content` attribute. -/
def namedMeta (name content : String) : Element :=
  ⟨"meta".toList, [("name".toList, name.toList), ("content".toList, content.toList)], []⟩

/-- A `title` element with the given text. -/
def titleElement (text : String) : Element := ⟨"title".toList, [], text.toList⟩

/-- A document with an `og:title`, an `og:url` with empty content, and a `title` element. -/
def docEmptyOgUrl : Document :=
  ⟨[ogMeta "og:title" "Hello", ogMeta "og:url" "", titleElement "Page Title"]⟩

/-- A document with no `meta` element and one `title` element. -/
def docTitleOnly : Document := ⟨[titleElement "Page Title"]⟩

/-- A document with no `og:title`, a `title` element in the head, and an inline `svg` element
that has a `title` element of its own. -/
def docTwoTitleElements : Document :=
  ⟨[titleElement "Head Title", ⟨"svg".toList, [], "Svg Title".toList⟩,
    titleElement "Svg Title"]⟩

/-- A document with two `og:title` elements, the last with empty content, and a `title`
element. -/
def docTwoTitles : Document :=
  ⟨[ogMeta "og:title" "A", ogMeta "og:title" "", titleElement "T"]⟩

/-- A document with two `og:title` elements, both with non-empty content. -/
def docTwoTitlesFilled : Document :=
  ⟨[ogMeta "og:title" "A", titleElement "T", ogMeta "og:title" "B"]⟩

/-- A document with an `og:description` of empty content, a `meta[name='description']` element,
and the three elements `og:type`, `og:image` and `og:site_name`, the first of them twice. -/
def docDescription : Document :=
  ⟨[ogMeta "og:description" "", namedMeta "description" "plain", ogMeta "og:type" "website",
    ogMeta "og:image" "http://a.example/i.png", ogMeta "og:type" "article",
    ogMeta "og:site_name" "Example"]⟩

/-! ## The validator, the error messages and the frame of the walk: vocabulary and examples -/

/-- The scheme of a link as text: what stands before the first colon. -/
def schemeOf (link : GoString) : GoString := link.takeWhile (fun c => c != ':')

/-- The host of a link of the selector's form as text: what stands between `://` and the next
slash or question mark. -/
def hostOf (link : GoString) : GoString :=
  ((link.dropWhile (fun c => c != ':')).drop 3).takeWhile (fun c => c != '/' && c != '?')

/-- The assumption on `url.ParseRequestURI` under which the scheme check is read: for a link of
the selector's form, the `Scheme` of a successful parse is the text before the first colon of
the link, as `net/url` reports it. -/
def ReportsScheme (env : Env) : Prop :=
  ∀ link parsed, IsUrlMatch link → env.ParseRequestURI link = .ok parsed →
    parsed.Scheme = schemeOf link

/-- The call takes the branch `unsupported scheme` of lines 60 to 64: there is a link, it
parses, and the parsed scheme is neither `http` nor `https`. -/
def TakesUnsupportedScheme (env : Env) (text : GoString) : Prop :=
  extractLastURL text ≠ [] ∧
  ∃ parsed, env.ParseRequestURI (extractLastURL text) = .ok parsed ∧
    parsed.Scheme ≠ "http".toList ∧ parsed.Scheme ≠ "https".toList

/-- What `url.ParseRequestURI` of the Go standard library returns for a link of the selector's
form: such a link has no control character, no escape, no user information and no port, and
after its scheme comes `//`, so the parse succeeds; the scheme is the text before the first
colon and the host is the text between `//` and the next slash or question mark, which may be
empty. -/
def parseSelectorLink (link : GoString) : Except GoError URL :=
  .ok ⟨schemeOf link, hostOf link⟩

/-- Collaborators with the parser of the standard library on selector links, a given HTTP
client, and a document parser that returns `doc`. -/
def stdEnv (get : GoString → Except GoError Response) (doc : Document) : Env where
  ParseRequestURI := parseSelectorLink
  Get := get
  NewDocumentFromReader := fun _ => .ok doc
  NewULIDFromTime := fun _ => "01".toList

/-- The error of `http.Get` for a request URL without a host: a `*url.Error` that wraps
`http: no Host in request URL`. -/
def noHostError : GoError :=
  ⟨"Get \"http:///x\": http: no Host in request URL".toList, "*url.Error".toList,
    "&\x7bGet http:///x 0xc000012340\x7d".toList⟩

/-- The outcome is a rejection by the validator: no Card, an error, and no GET request. -/
def ValidationRejects (r : Result) : Prop :=
  r.card = none ∧ r.err ≠ none ∧ r.requests = []

/-- The error of `http.Get` when the connection is refused: a `*url.Error`; the reflection
rendering of the value shows its fields, the wrapped error as a pointer. -/
def connectionRefused : GoError :=
  ⟨"Get \"http://a.example/x\": dial tcp 203.0.113.1:80: connect: connection refused".toList,
    "*url.Error".toList, "&\x7bGet http://a.example/x 0xc0000a2050\x7d".toList⟩

/-- The error of a body that ends early, as the document parser passes it on. -/
def unexpectedEOF : GoError :=
  ⟨"unexpected EOF".toList, "*errors.errorString".toList, "&\x7bunexpected EOF\x7d".toList⟩

/-- Collaborators whose document parser fails with the given error. -/
def brokenBodyEnv (e : GoError) : Env where
  ParseRequestURI := parseSelectorLink
  Get := fun _ => .ok okResponse
  NewDocumentFromReader := fun _ => .error e
  NewULIDFromTime := fun _ => "01".toList

/-- Collaborators that differ from `exampleEnv` only in the identifier generator. -/
def exampleEnvWithULID (resp : Response) (doc : Document) (ulid : GoString) : Env :=
  { exampleEnv resp doc with NewULIDFromTime := fun _ => ulid }

/-- The `property` value is one of the six that the walk maps to a field. -/
def isOgProperty (p : GoString) : Bool :=
  p == "og:title".toList || p == "og:description".toList || p == "og:type".toList ||
  p == "og:image".toList || p == "og:url".toList || p == "og:site_name".toList

/-- A `meta` element that has none of the six properties and is not selected by
`meta[name='description']`. -/
def Element.removable (e : Element) : Bool :=
  e.tag == "meta".toList && !isOgProperty e.property &&
  !(Selector.tagAttr "meta".toList "name".toList "description".toList).holds e

/-- The document without its removable `meta` elements. -/
def Document.prune (doc : Document) : Document :=
  ⟨doc.elements.filter (fun e => !e.removable)⟩

/-- A document with `meta` elements that the walk ignores. -/
def docWithNoise : Document :=
  ⟨[namedMeta "viewport" "width=device-width", ogMeta "og:title" "Hello",
    ogMeta "twitter:card" "summary", namedMeta "description" "plain",
    ⟨"meta".toList, [("charset".toList, "utf-8".toList)], []⟩, titleElement "Page Title"]⟩

/-! ## The URL selector: soundness and completeness of the scan -/

theorem lit_eq_some (p s r : GoString) : lit p s = some r ↔ s = p ++ r := by
  induction p generalizing s with
  | nil => simp [lit, eq_comm]
  | cons a p ih =>
    cases s with
    | nil => simp [lit]
    | cons c cs =>
      by_cases h : a = c
      · subst h; simp [lit, ih]
      · have h' : ¬ c = a := fun e => h e.symm
        simp [lit, h, h']

theorem classPlus_eq_some (s run rest : GoString) :
    classPlus s = some (run, rest) ↔
      run = s.takeWhile isUrlChar ∧ rest = s.dropWhile isUrlChar ∧ run ≠ [] := by
  unfold classPlus
  by_cases h : s.takeWhile isUrlChar = []
  · simp [h]
    intro h1 _
    exact h1
  · simp [h]
    constructor
    · rintro ⟨rfl, rfl⟩; exact ⟨rfl, rfl, h⟩
    · rintro ⟨rfl, rfl, -⟩; exact ⟨rfl, rfl⟩

theorem classPlus_sound (s run rest : GoString) (h : classPlus s = some (run, rest)) :
    s = run ++ rest ∧ run ≠ [] ∧ (∀ c ∈ run, isUrlChar c = true) ∧
      (∀ c, rest.head? = some c → isUrlChar c = false) := by
  obtain ⟨rfl, rfl, hne⟩ := (classPlus_eq_some s run rest).1 h
  refine ⟨by simp, hne, fun c hc => List.mem_takeWhile_imp hc, ?_⟩
  intro c hc
  have := List.head?_dropWhile_not isUrlChar s
  rw [hc] at this
  simpa using this


theorem matchTail_sound (s run rest : GoString) (h : matchTail s = some (run, rest)) :
    s = [':', '/', '/'] ++ run ++ rest ∧ run ≠ [] ∧ (∀ c ∈ run, isUrlChar c = true) ∧
      (∀ c, rest.head? = some c → isUrlChar c = false) := by
  unfold matchTail at h
  cases hl : lit [':', '/', '/'] s with
  | none => simp [hl] at h
  | some r =>
    rw [hl] at h
    have hs := (lit_eq_some _ _ _).1 hl
    obtain ⟨h1, h2, h3, h4⟩ := classPlus_sound r run rest h
    refine ⟨?_, h2, h3, h4⟩
    rw [hs, h1]; simp

/-- Soundness of the anchored match: the input splits into the match and the rest, the match has
the shape of the pattern, and the match is maximal. -/
theorem matchHere_sound (s m rest : GoString) (h : matchHere s = some (m, rest)) :
    s = m ++ rest ∧ IsUrlMatch m ∧ (∀ c, rest.head? = some c → isUrlChar c = false) := by
  unfold matchHere at h
  cases hl : lit ['h', 't', 't', 'p'] s with
  | none => simp [hl] at h
  | some r =>
    have hs := (lit_eq_some _ _ _).1 hl
    simp only [hl] at h
    cases h1 : (lit ['s'] r).bind matchTail with
    | some p =>
      obtain ⟨run, rest1⟩ := p
      simp only [h1, Option.some.injEq, Prod.mk.injEq] at h
      obtain ⟨rfl, rfl⟩ := h
      cases h2 : lit ['s'] r with
      | none => simp [h2] at h1
      | some r2 =>
        have hr := (lit_eq_some _ _ _).1 h2
        rw [h2] at h1
        obtain ⟨e1, e2, e3, e4⟩ := matchTail_sound r2 run rest1 h1
        refine ⟨?_, ⟨run, e2, e3, Or.inr rfl⟩, e4⟩
        rw [hs, hr, e1]; simp
    | none =>
      simp only [h1] at h
      cases h2 : matchTail r with
      | none => simp [h2] at h
      | some p =>
        obtain ⟨run, rest1⟩ := p
        simp only [h2, Option.some.injEq, Prod.mk.injEq] at h
        obtain ⟨rfl, rfl⟩ := h
        obtain ⟨e1, e2, e3, e4⟩ := matchTail_sound r run rest1 h2
        refine ⟨?_, ⟨run, e2, e3, Or.inl rfl⟩, e4⟩
        rw [hs, e1]; simp

/-- Completeness of the anchored match: where a text matching the pattern starts, the anchored
match succeeds. -/
theorem matchHere_complete (u post : GoString) (hu : IsUrlMatch u) :
    ∃ m rest, matchHere (u ++ post) = some (m, rest) := by
  obtain ⟨run, hne, hall, hu⟩ := hu
  cases run with
  | nil => exact absurd rfl hne
  | cons c run =>
    have hc : isUrlChar c = true := hall c (List.mem_cons_self _ _)
    rcases hu with rfl | rfl
    · simp [matchHere, lit, matchTail, classPlus, hc]
    · simp [matchHere, lit, matchTail, classPlus, hc]


theorem containsUrl_cons (c : Char) (cs : GoString) (h : ContainsUrl (c :: cs)) :
    (∃ u post, c :: cs = u ++ post ∧ IsUrlMatch u) ∨ ContainsUrl cs := by
  obtain ⟨pre, u, post, he, hu⟩ := h
  cases pre with
  | nil => exact Or.inl ⟨u, post, by simpa using he, hu⟩
  | cons a pre =>
    refine Or.inr ⟨pre, u, post, ?_, hu⟩
    simp at he
    simpa using he.2

theorem findFirst_sound (s m rest : GoString) (h : findFirst s = some (m, rest)) :
    ∃ pre, s = pre ++ m ++ rest ∧ IsUrlMatch m ∧
      (∀ c, rest.head? = some c → isUrlChar c = false) := by
  induction s with
  | nil => simp [findFirst] at h
  | cons c cs ih =>
    unfold findFirst at h
    cases hm : matchHere (c :: cs) with
    | some r =>
      simp only [hm, Option.some.injEq] at h
      subst h
      obtain ⟨e1, e2, e3⟩ := matchHere_sound _ _ _ hm
      exact ⟨[], by simpa using e1, e2, e3⟩
    | none =>
      simp only [hm] at h
      obtain ⟨pre, e1, e2, e3⟩ := ih h
      exact ⟨c :: pre, by simp [e1], e2, e3⟩

theorem findFirst_complete (s : GoString) (h : ContainsUrl s) :
    ∃ m rest, findFirst s = some (m, rest) := by
  induction s with
  | nil =>
    obtain ⟨pre, u, post, he, run, hne, -, hu⟩ := h
    rcases hu with rfl | rfl <;> simp at he
  | cons c cs ih =>
    unfold findFirst
    cases hm : matchHere (c :: cs) with
    | some r => exact ⟨r.1, r.2, rfl⟩
    | none =>
      rcases containsUrl_cons c cs h with ⟨u, post, he, hu⟩ | h2
      · obtain ⟨m, rest, hh⟩ := matchHere_complete u post hu
        rw [← he, hm] at hh
        exact absurd hh (by simp)
      · exact ih h2

theorem findFirst_eq_none_iff (s : GoString) : findFirst s = none ↔ ¬ ContainsUrl s := by
  constructor
  · intro h hc
    obtain ⟨m, rest, hh⟩ := findFirst_complete s hc
    rw [h] at hh
    exact absurd hh (by simp)
  · intro h
    cases hf : findFirst s with
    | none => rfl
    | some r =>
      obtain ⟨m, rest⟩ := r
      obtain ⟨pre, e1, e2, -⟩ := findFirst_sound s m rest hf
      exact absurd ⟨pre, m, rest, e1, e2⟩ h

theorem isUrlMatch_length (u : GoString) (h : IsUrlMatch u) : 8 ≤ u.length := by
  obtain ⟨run, hne, -, hu⟩ := h
  have : 1 ≤ run.length := List.length_pos.2 hne
  rcases hu with rfl | rfl <;>
    (simp only [List.length_append, List.length_cons, List.length_nil]; omega)

theorem findFirst_rest_length (s m rest : GoString) (h : findFirst s = some (m, rest)) :
    rest.length + 8 ≤ s.length := by
  obtain ⟨pre, e1, e2, -⟩ := findFirst_sound s m rest h
  have := isUrlMatch_length m e2
  rw [e1]; simp; omega

theorem findAllLoop_eq_nil_iff (n : Nat) (s : GoString) :
    findAllLoop (n + 1) s = [] ↔ findFirst s = none := by
  unfold findAllLoop
  cases findFirst s with
  | none => simp
  | some r => simp

/-- The last match delivered by the loop: it occurs in the input, has the shape of the pattern,
is maximal, and nothing after it matches the pattern. -/
theorem findAllLoop_getLast (n : Nat) (s r : GoString) (hn : s.length ≤ n)
    (h : (findAllLoop (n + 1) s).getLast? = some r) :
    ∃ pre post, s = pre ++ r ++ post ∧ IsUrlMatch r ∧
      (∀ c, post.head? = some c → isUrlChar c = false) ∧ ¬ ContainsUrl post := by
  induction n generalizing s with
  | zero =>
    have : s = [] := List.length_eq_zero.1 (Nat.le_zero.1 hn)
    subst this
    simp [findAllLoop, findFirst] at h
  | succ k ih =>
    rw [findAllLoop] at h
    cases hf : findFirst s with
    | none => simp [hf] at h
    | some p =>
      obtain ⟨m, rest⟩ := p
      simp only [hf] at h
      obtain ⟨pre, e1, e2, e3⟩ := findFirst_sound s m rest hf
      have hl := findFirst_rest_length s m rest hf
      cases hrest : findAllLoop (k + 1) rest with
      | nil =>
        rw [hrest] at h
        simp at h
        subst h
        exact ⟨pre, rest, e1, e2, e3,
          (findFirst_eq_none_iff rest).1 ((findAllLoop_eq_nil_iff k rest).1 hrest)⟩
      | cons a l =>
        have h2 : (findAllLoop (k + 1) rest).getLast? = some r := by
          rw [hrest] at h ⊢
          simpa [List.getLast?_cons_cons] using h
        obtain ⟨pre2, post, f1, f2, f3, f4⟩ := ih rest (by omega) h2
        exact ⟨pre ++ m ++ pre2, post, by rw [e1, f1]; simp, f2, f3, f4⟩

theorem extractLastURL_eq_nil_iff (text : GoString) :
    extractLastURL text = [] ↔ ¬ ContainsUrl text := by
  unfold extractLastURL
  simp only
  split
  · rename_i h
    simp only [true_iff]
    exact (findFirst_eq_none_iff text).1 ((findAllLoop_eq_nil_iff _ text).1 h)
  · rename_i h
    have hl : (FindAllString text).getLast? = some ((FindAllString text).getLast h) :=
      List.getLast?_eq_getLast _ h
    obtain ⟨pre, post, e1, e2, -, -⟩ := findAllLoop_getLast _ text _ (Nat.le_refl _) hl
    constructor
    · intro h0
      have := isUrlMatch_length _ e2
      rw [h0] at this
      simp at this
    · intro hc
      exact absurd ⟨pre, _, post, e1, e2⟩ hc

theorem extractLastURL_getLast (text : GoString) (h : extractLastURL text ≠ []) :
    (FindAllString text).getLast? = some (extractLastURL text) := by
  unfold extractLastURL at h ⊢
  simp only at h ⊢
  split
  · rename_i h0
    simp [h0] at h
  · rename_i h0
    exact List.getLast?_eq_getLast _ h0

/-! ## The URL selector: a URL at the end of the text -/

theorem endsOutsideClass_tail (a : Char) (q : GoString) (h : EndsOutsideClass (a :: q)) :
    EndsOutsideClass q := by
  cases q with
  | nil => intro c hc; simp at hc
  | cons b q => intro c hc; exact h c (by simpa [List.getLast?_cons_cons] using hc)

theorem takeWhile_boundary (q t : GoString) (hne : q ≠ []) (hb : EndsOutsideClass q) :
    (q ++ t).takeWhile isUrlChar = q.takeWhile isUrlChar ∧
    (q ++ t).dropWhile isUrlChar = q.dropWhile isUrlChar ++ t ∧
    q.dropWhile isUrlChar ≠ [] ∧ EndsOutsideClass (q.dropWhile isUrlChar) ∧
    (q.dropWhile isUrlChar).length ≤ q.length := by
  induction q with
  | nil => exact absurd rfl hne
  | cons a q ih =>
    by_cases ha : isUrlChar a = true
    · cases q with
      | nil =>
        have := hb a (by simp)
        rw [ha] at this
        exact absurd this (by simp)
      | cons b q =>
        obtain ⟨i1, i2, i3, i4, i5⟩ := ih (by simp) (endsOutsideClass_tail a _ hb)
        simp only [List.cons_append] at i1 i2 ⊢
        simp only [List.takeWhile_cons_of_pos ha, List.dropWhile_cons_of_pos ha]
        refine ⟨by rw [i1], i2, i3, i4, ?_⟩
        simp only [List.length_cons] at i5 ⊢
        omega
    · simp only [List.cons_append]
      simp only [List.takeWhile_cons_of_neg ha, List.dropWhile_cons_of_neg ha]
      refine ⟨?_, ?_, ?_, hb, Nat.le_refl _⟩ <;> simp

theorem split_after_http (pre u t : GoString) (hne : pre ≠ [])
    (hu : u.head? = some 'h')
    (h : pre ++ u = ['h', 't', 't', 'p', ':', '/', '/'] ++ t) :
    ∃ q, pre = ['h', 't', 't', 'p', ':', '/', '/'] ++ q ∧ t = q ++ u := by
  rcases List.append_eq_append_iff.1 h with ⟨a, h1, h2⟩ | ⟨c, h1, h2⟩
  · cases pre with
    | nil => exact absurd rfl hne
    | cons p0 pre =>
      have hs : a ∈ (['t', 't', 'p', ':', '/', '/'] : GoString).tails := by
        rw [List.mem_tails]
        simp only [List.cons_append, List.cons.injEq] at h1
        exact ⟨pre, h1.2.symm⟩
      simp [List.tails] at hs
      rcases hs with rfl | rfl | rfl | rfl | rfl | rfl | rfl
      all_goals first
        | (subst h2; simp at hu)
        | (refine ⟨[], ?_, ?_⟩
           · simp at h1 ⊢
             exact ⟨h1.1.symm, h1.2.symm⟩
           · simpa using h2.symm)
  · exact ⟨c, h1, h2⟩

theorem split_after_https (pre u t : GoString) (hne : pre ≠ [])
    (hu : u.head? = some 'h')
    (h : pre ++ u = ['h', 't', 't', 'p', 's', ':', '/', '/'] ++ t) :
    ∃ q, pre = ['h', 't', 't', 'p', 's', ':', '/', '/'] ++ q ∧ t = q ++ u := by
  rcases List.append_eq_append_iff.1 h with ⟨a, h1, h2⟩ | ⟨c, h1, h2⟩
  · cases pre with
    | nil => exact absurd rfl hne
    | cons p0 pre =>
      have hs : a ∈ (['t', 't', 'p', 's', ':', '/', '/'] : GoString).tails := by
        rw [List.mem_tails]
        simp only [List.cons_append, List.cons.injEq] at h1
        exact ⟨pre, h1.2.symm⟩
      simp [List.tails] at hs
      rcases hs with rfl | rfl | rfl | rfl | rfl | rfl | rfl | rfl
      all_goals first
        | (subst h2; simp at hu)
        | (refine ⟨[], ?_, ?_⟩
           · simp at h1 ⊢
             exact ⟨h1.1.symm, h1.2.symm⟩
           · simpa using h2.symm)
  · exact ⟨c, h1, h2⟩

/-- The exact shape of an anchored match: the input starts with one of the two literals, the run
is the longest run of class characters after it, and the rest is what follows the run. -/
theorem matchHere_shape (s m rest : GoString) (h : matchHere s = some (m, rest)) :
    ∃ t, ((s = ['h', 't', 't', 'p', ':', '/', '/'] ++ t ∧
            m = ['h', 't', 't', 'p', ':', '/', '/'] ++ t.takeWhile isUrlChar) ∨
          (s = ['h', 't', 't', 'p', 's', ':', '/', '/'] ++ t ∧
            m = ['h', 't', 't', 'p', 's', ':', '/', '/'] ++ t.takeWhile isUrlChar)) ∧
      rest = t.dropWhile isUrlChar ∧ t.takeWhile isUrlChar ≠ [] := by
  unfold matchHere at h
  cases hl : lit ['h', 't', 't', 'p'] s with
  | none => simp [hl] at h
  | some r =>
    have hs := (lit_eq_some _ _ _).1 hl
    simp only [hl] at h
    cases h1 : (lit ['s'] r).bind matchTail with
    | some p =>
      obtain ⟨run, rest1⟩ := p
      simp only [h1, Option.some.injEq, Prod.mk.injEq] at h
      obtain ⟨rfl, rfl⟩ := h
      cases h2 : lit ['s'] r with
      | none => simp [h2] at h1
      | some r2 =>
        have hr := (lit_eq_some _ _ _).1 h2
        rw [h2] at h1
        simp only [Option.some_bind, matchTail] at h1
        cases h3 : lit [':', '/', '/'] r2 with
        | none => simp [h3] at h1
        | some r3 =>
          have hr3 := (lit_eq_some _ _ _).1 h3
          rw [h3] at h1
          obtain ⟨rfl, rfl, hne⟩ := (classPlus_eq_some r3 run rest1).1 h1
          exact ⟨r3, Or.inr ⟨by rw [hs, hr, hr3]; simp, rfl⟩, rfl, hne⟩
    | none =>
      simp only [h1] at h
      cases h2 : matchTail r with
      | none => simp [h2] at h
      | some p =>
        obtain ⟨run, rest1⟩ := p
        simp only [h2, Option.some.injEq, Prod.mk.injEq] at h
        obtain ⟨rfl, rfl⟩ := h
        simp only [matchTail] at h2
        cases h3 : lit [':', '/', '/'] r with
        | none => simp [h3] at h2
        | some r3 =>
          have hr3 := (lit_eq_some _ _ _).1 h3
          rw [h3] at h2
          obtain ⟨rfl, rfl, hne⟩ := (classPlus_eq_some r3 run rest1).1 h2
          exact ⟨r3, Or.inl ⟨by rw [hs, hr3]; simp, rfl⟩, rfl, hne⟩

theorem isUrlMatch_head (u : GoString) (h : IsUrlMatch u) : u.head? = some 'h' := by
  obtain ⟨run, -, -, hu⟩ := h
  rcases hu with rfl | rfl <;> rfl

/-- An anchored match that starts inside `pre` ends inside `pre`, when `pre` ends with a
character outside the class and is followed by a text that starts a URL. -/
theorem matchHere_boundary (pre u m rest : GoString) (hne : pre ≠ [])
    (hb : EndsOutsideClass pre) (hu : u.head? = some 'h')
    (h : matchHere (pre ++ u) = some (m, rest)) :
    ∃ q, rest = q ++ u ∧ EndsOutsideClass q ∧ q.length < pre.length := by
  obtain ⟨t, hs, hrest, -⟩ := matchHere_shape _ _ _ h
  rcases hs with ⟨hs, -⟩ | ⟨hs, -⟩
  · obtain ⟨q, hq, ht⟩ := split_after_http pre u t hne hu hs
    have hqne : q ≠ [] := by
      rintro rfl
      have := hb '/' (by rw [hq]; rfl)
      exact absurd this (by decide)
    have hbq : EndsOutsideClass q := by
      intro c hc
      refine hb c ?_
      rw [hq, List.getLast?_append, hc]; rfl
    obtain ⟨-, i2, -, i4, i5⟩ := takeWhile_boundary q u hqne hbq
    refine ⟨q.dropWhile isUrlChar, by rw [hrest, ht, i2], i4, ?_⟩
    rw [hq]; simp only [List.length_append, List.length_cons, List.length_nil]; omega
  · obtain ⟨q, hq, ht⟩ := split_after_https pre u t hne hu hs
    have hqne : q ≠ [] := by
      rintro rfl
      have := hb '/' (by rw [hq]; rfl)
      exact absurd this (by decide)
    have hbq : EndsOutsideClass q := by
      intro c hc
      refine hb c ?_
      rw [hq, List.getLast?_append, hc]; rfl
    obtain ⟨-, i2, -, i4, i5⟩ := takeWhile_boundary q u hqne hbq
    refine ⟨q.dropWhile isUrlChar, by rw [hrest, ht, i2], i4, ?_⟩
    rw [hq]; simp only [List.length_append, List.length_cons, List.length_nil]; omega

/-- An anchored match at a text that matches the pattern and is followed by nothing, or by a
character outside the class, is that text. -/
theorem matchHere_exact (u post : GoString) (hu : IsUrlMatch u)
    (hp : ∀ c, post.head? = some c → isUrlChar c = false) :
    matchHere (u ++ post) = some (u, post) := by
  obtain ⟨run, hne, hall, hu⟩ := hu
  have h1 : (run ++ post).takeWhile isUrlChar = run := by
    rw [List.takeWhile_append_of_pos hall]
    cases post with
    | nil => simp
    | cons c post =>
      have := hp c rfl
      simp [this]
  have h2 : (run ++ post).dropWhile isUrlChar = post := by
    rw [List.dropWhile_append_of_pos hall]
    cases post with
    | nil => simp
    | cons c post =>
      have := hp c rfl
      simp [this]
  have h3 : classPlus (run ++ post) = some (run, post) :=
    (classPlus_eq_some _ _ _).2 ⟨h1.symm, h2.symm, hne⟩
  rcases hu with rfl | rfl
  · simp [matchHere, lit, matchTail, h3]
  · simp [matchHere, lit, matchTail, h3]

/-- One execution of the pattern on `pre ++ u`: either it delivers `u` and exhausts the input,
or it delivers a match inside `pre` and leaves a shorter input of the same form. -/
theorem findFirst_boundary (pre u : GoString) (hb : EndsOutsideClass pre) (hu : IsUrlMatch u) :
    findFirst (pre ++ u) = some (u, []) ∨
    ∃ m q, findFirst (pre ++ u) = some (m, q ++ u) ∧ EndsOutsideClass q ∧
      q.length < pre.length := by
  induction pre with
  | nil =>
    left
    obtain ⟨c, cs, hc⟩ : ∃ c cs, u = c :: cs := by
      cases u with
      | nil => exact absurd (isUrlMatch_head _ hu) (by simp)
      | cons c cs => exact ⟨c, cs, rfl⟩
    have := matchHere_exact u [] hu (by simp)
    simp only [List.append_nil, List.nil_append] at this ⊢
    rw [hc] at this ⊢
    simp [findFirst, this]
  | cons a pre ih =>
    simp only [List.cons_append, findFirst]
    cases hm : matchHere (a :: (pre ++ u)) with
    | some r =>
      obtain ⟨m, rest⟩ := r
      right
      obtain ⟨q, h1, h2, h3⟩ :=
        matchHere_boundary (a :: pre) u m rest (by simp) hb (isUrlMatch_head _ hu) hm
      exact ⟨m, q, by rw [h1], h2, h3⟩
    | none =>
      simp only
      rcases ih (endsOutsideClass_tail a pre hb) with h | ⟨m, q, h1, h2, h3⟩
      · exact Or.inl h
      · exact Or.inr ⟨m, q, h1, h2, by simp only [List.length_cons]; omega⟩

theorem findAllLoop_nil_input (n : Nat) : findAllLoop n [] = [] := by
  cases n <;> simp [findAllLoop, findFirst]

/-- The loop on `pre ++ u` delivers `u` last. -/
theorem findAllLoop_boundary (n : Nat) (pre u : GoString) (hn : (pre ++ u).length ≤ n)
    (hb : EndsOutsideClass pre) (hu : IsUrlMatch u) :
    (findAllLoop (n + 1) (pre ++ u)).getLast? = some u := by
  induction n generalizing pre with
  | zero =>
    have := isUrlMatch_length u hu
    simp only [List.length_append] at hn
    omega
  | succ k ih =>
    rw [findAllLoop]
    rcases findFirst_boundary pre u hb hu with h | ⟨m, q, h1, h2, h3⟩
    · simp [h, findAllLoop_nil_input]
    · simp only [h1]
      have hq := ih q (by simp only [List.length_append] at hn ⊢; omega) h2
      cases hl : findAllLoop (k + 1) (q ++ u) with
      | nil => rw [hl] at hq; simp at hq
      | cons x xs =>
        rw [hl] at hq
        rw [List.getLast?_cons_cons]
        exact hq

theorem extractLastURL_of_getLast (text r : GoString)
    (h : (FindAllString text).getLast? = some r) : extractLastURL text = r := by
  unfold extractLastURL
  simp only
  split
  · rename_i h0
    rw [h0] at h
    simp at h
  · rename_i h0
    rw [List.getLast?_eq_getLast _ h0] at h
    simpa using h

/-! ## The outcomes of `FetchPreview` -/

theorem FetchPreview_noLink (env : Env) (text : GoString) (now : Nat)
    (h : extractLastURL text = []) : FetchPreview env text now = ⟨none, none, []⟩ := by
  simp [FetchPreview, h]

theorem FetchPreview_link (env : Env) (text : GoString) (now : Nat)
    (h : extractLastURL text ≠ []) :
    ((FetchPreview env text now).card = none ∧ (FetchPreview env text now).err ≠ none) ∨
    ((FetchPreview env text now).card ≠ none ∧ (FetchPreview env text now).err = none) := by
  unfold FetchPreview
  simp only [h, if_false]
  split
  · simp
  · split
    · simp
    · split
      · simp
      · split
        · simp
        · split <;> simp

theorem FetchPreview_of_fetches (env : Env) (text : GoString) (now : Nat) (doc : Document)
    (h : Fetches env text doc) :
    FetchPreview env text now =
      ⟨some (buildCard (extractLastURL text) (env.NewULIDFromTime now) doc), none,
        [extractLastURL text]⟩ := by
  obtain ⟨h1, parsed, resp, h2, h3, h4, h5, h6⟩ := h
  have hs : ¬ (parsed.Scheme ≠ "http".toList ∧ parsed.Scheme ≠ "https".toList) := by
    rintro ⟨n1, n2⟩
    rcases h3 with h3 | h3
    · exact n1 h3
    · exact n2 h3
  unfold FetchPreview
  simp only [h1, if_false, h2, if_neg hs, h4, h5, h6, ne_eq, not_true_eq_false]

/-! ## The URL selector: the link of a text -/

/-- C1: `FetchPreview` returns `(nil, nil)` exactly when the text contains no substring of the
form `http://` or `https://` followed by at least one class character; in that case no GET
request is issued; and a Card is only returned for a text that contains such a substring. -/
theorem FetchPreview_noLink_iff (env : Env) (text : GoString) (now : Nat) :
    (((FetchPreview env text now).card = none ∧ (FetchPreview env text now).err = none) ↔
        ¬ ContainsUrl text) ∧
    (¬ ContainsUrl text → (FetchPreview env text now).requests = []) ∧
    (∀ card, (FetchPreview env text now).card = some card → ContainsUrl text) := by
  refine ⟨⟨?_, ?_⟩, ?_, ?_⟩
  · intro ⟨hc, he⟩ hu
    have hl : extractLastURL text ≠ [] := fun h0 => (extractLastURL_eq_nil_iff text).1 h0 hu
    rcases FetchPreview_link env text now hl with ⟨-, h⟩ | ⟨h, -⟩
    · exact h he
    · exact h hc
  · intro hu
    rw [FetchPreview_noLink env text now ((extractLastURL_eq_nil_iff text).2 hu)]
    exact ⟨rfl, rfl⟩
  · intro hu
    rw [FetchPreview_noLink env text now ((extractLastURL_eq_nil_iff text).2 hu)]
  · intro card hc
    by_contra hu
    rw [FetchPreview_noLink env text now ((extractLastURL_eq_nil_iff text).2 hu)] at hc
    simp at hc

theorem FetchPreview_noLink_iff_witness :
    ((FetchPreview (exampleEnv okResponse ⟨[]⟩) "no link, only ftp://a.example".toList 0).card
        = none ∧
      (FetchPreview (exampleEnv okResponse ⟨[]⟩) "no link, only ftp://a.example".toList 0).err
        = none) ∧
    (FetchPreview (exampleEnv okResponse ⟨[]⟩) "no link, only ftp://a.example".toList 0).requests
        = [] ∧
    ContainsUrl "see http://a.example/x".toList :=
  have h : ¬ ContainsUrl "no link, only ftp://a.example".toList :=
    (findFirst_eq_none_iff _).1 (by decide)
  ⟨(FetchPreview_noLink_iff (exampleEnv okResponse ⟨[]⟩) _ 0).1.2 h,
   (FetchPreview_noLink_iff (exampleEnv okResponse ⟨[]⟩) _ 0).2.1 h,
   (FetchPreview_noLink_iff (exampleEnv okResponse ⟨[]⟩) "see http://a.example/x".toList 0).2.2
     _ (by decide : (FetchPreview (exampleEnv okResponse ⟨[]⟩) "see http://a.example/x".toList
        0).card = some ⟨"01".toList, "http://a.example/x".toList, [], [], [], [], []⟩)⟩

/-- C2, counterexample: in `http://http://a` the selector returns `http://http`, which occurs only
at position 0, while `http://a` matches the pattern and begins at position 7. -/
theorem extractLastURL_not_last_start :
    ContainsUrl "http://http://a".toList ∧ ¬ SelectsLastMatch "http://http://a".toList := by
  have hu : IsUrlMatch "http://a".toList := ⟨['a'], by simp, by decide, Or.inl rfl⟩
  refine ⟨⟨"http://".toList, "http://a".toList, [], rfl, hu⟩, ?_⟩
  rintro ⟨pre, post, h1, -, h3⟩
  have h7 := h3 "http://".toList "http://a".toList [] rfl hu
  have he : extractLastURL "http://http://a".toList = "http://http".toList := by decide
  rw [he] at h1
  have hl := congrArg List.length h1
  simp at hl h7
  omega

/-- C2, amended: for a text that contains a match of the pattern, the result occurs in the text,
matches the pattern, and no substring that matches the pattern begins at or after the position
where that occurrence of the result ends. -/
theorem extractLastURL_last_nonoverlapping (text : GoString) (h : ContainsUrl text) :
    ∃ pre post, text = pre ++ extractLastURL text ++ post ∧ IsUrlMatch (extractLastURL text) ∧
      ∀ pre2 u2 post2, text = pre2 ++ u2 ++ post2 → IsUrlMatch u2 →
        pre2.length < pre.length + (extractLastURL text).length := by
  have hne : extractLastURL text ≠ [] := fun h0 => (extractLastURL_eq_nil_iff text).1 h0 h
  obtain ⟨pre, post, e1, e2, -, e4⟩ :=
    findAllLoop_getLast _ text _ (Nat.le_refl _) (extractLastURL_getLast text hne)
  refine ⟨pre, post, e1, e2, ?_⟩
  intro pre2 u2 post2 f1 f2
  by_contra hlt
  have hle : pre.length + (extractLastURL text).length ≤ pre2.length := Nat.le_of_not_lt hlt
  apply e4
  have heq : (pre ++ extractLastURL text) ++ post = pre2 ++ (u2 ++ post2) := by
    rw [← e1, f1]; simp
  rcases List.append_eq_append_iff.1 heq with ⟨a, h1, h2⟩ | ⟨c, h1, h2⟩
  · exact ⟨a, u2, post2, by rw [h2]; simp, f2⟩
  · have hl := congrArg List.length h1
    simp only [List.length_append] at hl
    have hc : c = [] := List.length_eq_zero.1 (by omega)
    subst hc
    exact ⟨[], u2, post2, by simpa using h2.symm, f2⟩

theorem extractLastURL_last_nonoverlapping_witness :
    ∃ pre post, "http://http://a".toList = pre ++ extractLastURL "http://http://a".toList ++ post ∧
      IsUrlMatch (extractLastURL "http://http://a".toList) ∧
      ∀ pre2 u2 post2, "http://http://a".toList = pre2 ++ u2 ++ post2 → IsUrlMatch u2 →
        pre2.length < pre.length + (extractLastURL "http://http://a".toList).length :=
  extractLastURL_last_nonoverlapping "http://http://a".toList
    ⟨"http://".toList, "http://a".toList, [], rfl, ⟨['a'], by simp, by decide, Or.inl rfl⟩⟩

/-- C3: for a text `pre ++ u`, where `u` is `http://` or `https://` followed by one or more class
characters and `pre` is empty or ends with a character outside the class, `extractLastURL`
returns exactly `u`, whatever URLs `pre` contains. -/
theorem extractLastURL_append_url (pre u : GoString) (hu : IsUrlMatch u)
    (hb : EndsOutsideClass pre) : extractLastURL (pre ++ u) = u :=
  extractLastURL_of_getLast _ _ (findAllLoop_boundary _ pre u (Nat.le_refl _) hb hu)

theorem extractLastURL_append_url_witness :
    extractLastURL ("see http://a.example/x and ".toList ++ "http://b.example/y".toList)
      = "http://b.example/y".toList :=
  extractLastURL_append_url "see http://a.example/x and ".toList "http://b.example/y".toList
    ⟨"b.example/y".toList, by simp, by decide, Or.inl rfl⟩
    (by intro c hc; simp at hc; subst hc; decide)

/-! ## The metadata extractor: last write wins -/

theorem foldl_last_write {β : Type} (step : Card → Element → Card) (proj : Card → β)
    (sel : Element → Bool) (val : Element → β)
    (hstep : ∀ c m, proj (step c m) = if sel m = true then val m else proj c)
    (ms : List Element) (c : Card) :
    proj (ms.foldl step c) = ((lastWhere sel ms).map val).getD (proj c) := by
  induction ms using List.reverseRecOn with
  | nil => simp [lastWhere]
  | append_singleton ms m ih =>
    rw [List.foldl_append, List.foldl_cons, List.foldl_nil, hstep]
    by_cases hm : sel m = true
    · simp [lastWhere, List.filter_append, hm]
    · simp [lastWhere, List.filter_append, hm] at ih ⊢
      exact ih

theorem applyMeta_Title (c : Card) (m : Element) :
    (applyMeta c m).Title =
      if (fun e : Element => e.property == "og:title".toList) m = true then m.content
      else c.Title := by
  simp only [applyMeta, Element.property, Element.content, beq_iff_eq]
  split_ifs <;> simp_all

theorem applyMeta_Description (c : Card) (m : Element) :
    (applyMeta c m).Description =
      if (fun e : Element => e.property == "og:description".toList) m = true then m.content
      else c.Description := by
  simp only [applyMeta, Element.property, Element.content, beq_iff_eq]
  split_ifs <;> simp_all

theorem applyMeta_Type (c : Card) (m : Element) :
    (applyMeta c m).Type_ =
      if (fun e : Element => e.property == "og:type".toList) m = true then m.content
      else c.Type_ := by
  simp only [applyMeta, Element.property, Element.content, beq_iff_eq]
  split_ifs <;> simp_all

theorem applyMeta_Image (c : Card) (m : Element) :
    (applyMeta c m).Image =
      if (fun e : Element => e.property == "og:image".toList) m = true then m.content
      else c.Image := by
  simp only [applyMeta, Element.property, Element.content, beq_iff_eq]
  split_ifs <;> simp_all

theorem applyMeta_ProviderName (c : Card) (m : Element) :
    (applyMeta c m).ProviderName =
      if (fun e : Element => e.property == "og:site_name".toList) m = true then m.content
      else c.ProviderName := by
  simp only [applyMeta, Element.property, Element.content, beq_iff_eq]
  split_ifs <;> simp_all

theorem applyMeta_URL (c : Card) (m : Element) :
    (applyMeta c m).URL =
      if (fun e : Element => e.property == "og:url".toList && e.content != []) m = true
      then m.content else c.URL := by
  simp only [applyMeta, Element.property, Element.content, beq_iff_eq, Bool.and_eq_true,
    bne_iff_ne]
  split_ifs <;> simp_all

theorem walkMeta_Title (c : Card) (doc : Document) :
    (walkMeta c doc).Title =
      ((lastMeta doc "og:title".toList).map Element.content).getD c.Title :=
  foldl_last_write applyMeta Card.Title _ Element.content applyMeta_Title doc.metas c

theorem walkMeta_Description (c : Card) (doc : Document) :
    (walkMeta c doc).Description =
      ((lastMeta doc "og:description".toList).map Element.content).getD c.Description :=
  foldl_last_write applyMeta Card.Description _ Element.content applyMeta_Description doc.metas c

theorem walkMeta_Type (c : Card) (doc : Document) :
    (walkMeta c doc).Type_ =
      ((lastMeta doc "og:type".toList).map Element.content).getD c.Type_ :=
  foldl_last_write applyMeta Card.Type_ _ Element.content applyMeta_Type doc.metas c

theorem walkMeta_Image (c : Card) (doc : Document) :
    (walkMeta c doc).Image =
      ((lastMeta doc "og:image".toList).map Element.content).getD c.Image :=
  foldl_last_write applyMeta Card.Image _ Element.content applyMeta_Image doc.metas c

theorem walkMeta_ProviderName (c : Card) (doc : Document) :
    (walkMeta c doc).ProviderName =
      ((lastMeta doc "og:site_name".toList).map Element.content).getD c.ProviderName :=
  foldl_last_write applyMeta Card.ProviderName _ Element.content applyMeta_ProviderName
    doc.metas c

theorem walkMeta_URL (c : Card) (doc : Document) :
    (walkMeta c doc).URL = ((lastNonEmptyOgUrl doc).map Element.content).getD c.URL :=
  foldl_last_write applyMeta Card.URL _ Element.content applyMeta_URL doc.metas c

theorem titleFallback_fields (c : Card) (doc : Document) :
    (titleFallback c doc).URL = c.URL ∧ (titleFallback c doc).Description = c.Description ∧
    (titleFallback c doc).Type_ = c.Type_ ∧ (titleFallback c doc).Image = c.Image ∧
    (titleFallback c doc).ProviderName = c.ProviderName ∧
    (titleFallback c doc).Title = if c.Title = [] then doc.titles.Text else c.Title := by
  unfold titleFallback Document.titles
  split_ifs <;> simp_all

theorem descriptionFallback_fields (c : Card) (doc : Document) :
    (descriptionFallback c doc).URL = c.URL ∧ (descriptionFallback c doc).Title = c.Title ∧
    (descriptionFallback c doc).Type_ = c.Type_ ∧ (descriptionFallback c doc).Image = c.Image ∧
    (descriptionFallback c doc).ProviderName = c.ProviderName ∧
    (descriptionFallback c doc).Description =
      if c.Description = [] then
        (if (Selection.Attr doc.descriptions "content".toList).2 = true then
          (Selection.Attr doc.descriptions "content".toList).1 else [])
      else c.Description := by
  unfold descriptionFallback Document.descriptions
  simp only
  split_ifs <;> simp_all

theorem buildCard_URL (link ulid : GoString) (doc : Document) :
    (buildCard link ulid doc).URL = ((lastNonEmptyOgUrl doc).map Element.content).getD link := by
  unfold buildCard
  simp only
  rw [(descriptionFallback_fields _ doc).1, (titleFallback_fields _ doc).1, walkMeta_URL]

theorem buildCard_Title (link ulid : GoString) (doc : Document) :
    (buildCard link ulid doc).Title =
      if ((lastMeta doc "og:title".toList).map Element.content).getD [] = [] then
        doc.titles.Text
      else ((lastMeta doc "og:title".toList).map Element.content).getD [] := by
  unfold buildCard
  simp only
  rw [(descriptionFallback_fields _ doc).2.1, (titleFallback_fields _ doc).2.2.2.2.2,
    walkMeta_Title]

theorem buildCard_Description (link ulid : GoString) (doc : Document) :
    (buildCard link ulid doc).Description =
      if ((lastMeta doc "og:description".toList).map Element.content).getD [] = [] then
        (if (Selection.Attr doc.descriptions "content".toList).2 = true then
          (Selection.Attr doc.descriptions "content".toList).1 else [])
      else ((lastMeta doc "og:description".toList).map Element.content).getD [] := by
  unfold buildCard
  simp only
  rw [(descriptionFallback_fields _ doc).2.2.2.2.2, (titleFallback_fields _ doc).2.1,
    walkMeta_Description]

theorem buildCard_rest (link ulid : GoString) (doc : Document) :
    (buildCard link ulid doc).Type_ =
      ((lastMeta doc "og:type".toList).map Element.content).getD [] ∧
    (buildCard link ulid doc).Image =
      ((lastMeta doc "og:image".toList).map Element.content).getD [] ∧
    (buildCard link ulid doc).ProviderName =
      ((lastMeta doc "og:site_name".toList).map Element.content).getD [] := by
  unfold buildCard
  simp only
  refine ⟨?_, ?_, ?_⟩
  · rw [(descriptionFallback_fields _ doc).2.2.1, (titleFallback_fields _ doc).2.2.1,
      walkMeta_Type]
  · rw [(descriptionFallback_fields _ doc).2.2.2.1, (titleFallback_fields _ doc).2.2.2.1,
      walkMeta_Image]
  · rw [(descriptionFallback_fields _ doc).2.2.2.2.1, (titleFallback_fields _ doc).2.2.2.2.1,
      walkMeta_ProviderName]

/-! ## The fields of the Card -/

theorem exampleEnv_fetches (doc : Document) (text : GoString) (h : extractLastURL text ≠ []) :
    Fetches (exampleEnv okResponse doc) text doc :=
  ⟨h, ⟨"http".toList, "a.example".toList⟩, okResponse, rfl, Or.inl rfl, rfl, rfl, rfl⟩

/-- C4: on a successful call, `Card.URL` is the content of the last `og:url` element whose
content is non-empty, and the link extracted from the text when there is no such element; an
`og:url` element with empty or missing content leaves the URL of any card unchanged. -/
theorem FetchPreview_card_URL (env : Env) (text : GoString) (now : Nat) (doc : Document)
    (h : Fetches env text doc) :
    ∃ card, FetchPreview env text now = ⟨some card, none, [extractLastURL text]⟩ ∧
      (∀ e, lastNonEmptyOgUrl doc = some e → card.URL = e.content) ∧
      (lastNonEmptyOgUrl doc = none → card.URL = extractLastURL text) ∧
      (∀ (c : Card) (m : Element), m.property = "og:url".toList → m.content = [] →
        (applyMeta c m).URL = c.URL) := by
  refine ⟨_, FetchPreview_of_fetches env text now doc h, ?_, ?_, ?_⟩
  · intro e he
    rw [buildCard_URL, he]; rfl
  · intro he
    rw [buildCard_URL, he]; rfl
  · intro c m _ hc
    rw [applyMeta_URL]
    simp [hc]

theorem FetchPreview_card_URL_witness :
    Fetches (exampleEnv okResponse docEmptyOgUrl) "see http://a.example/x".toList docEmptyOgUrl ∧
    ∃ card, FetchPreview (exampleEnv okResponse docEmptyOgUrl) "see http://a.example/x".toList 0
        = ⟨some card, none, ["http://a.example/x".toList]⟩ ∧
      card.URL = "http://a.example/x".toList := by
  have hf := exampleEnv_fetches docEmptyOgUrl "see http://a.example/x".toList (by decide)
  obtain ⟨card, h1, -, h3, -⟩ :=
    FetchPreview_card_URL _ "see http://a.example/x".toList 0 docEmptyOgUrl hf
  have he : extractLastURL "see http://a.example/x".toList = "http://a.example/x".toList := by
    decide
  exact ⟨hf, card, by rw [h1, he], by rw [h3 (by decide), he]⟩

/-- C5, counterexample: with the `og:title` contents `A` and the empty string, in this order, and
a `title` element `T`, the title of the card is `T`, not the content of the last `og:title`. -/
theorem FetchPreview_title_not_last_ogTitle :
    FetchPreview (exampleEnv okResponse docTwoTitles) "http://a.example/x".toList 0 =
      ⟨some ⟨"01".toList, "http://a.example/x".toList, "T".toList, [], [], [], []⟩, none,
        ["http://a.example/x".toList]⟩ ∧
    HasTwoOgTitles docTwoTitles ∧
    ¬ TitleIsLastOgTitle docTwoTitles
        ⟨"01".toList, "http://a.example/x".toList, "T".toList, [], [], [], []⟩ := by
  refine ⟨by decide, ⟨ogMeta "og:title" "A", ogMeta "og:title" "", by decide, by decide,
    by decide, by decide, by decide⟩, ?_⟩
  intro h
  have := h (ogMeta "og:title" "") (by decide)
  exact absurd this (by decide)

/-- C5, amended: on a successful call for a document that contains two `og:title` elements with
different content, the title of the card is the content of the last `og:title` element whenever
that content is not empty. -/
theorem FetchPreview_card_Title_last (env : Env) (text : GoString) (now : Nat) (doc : Document)
    (h : Fetches env text doc) (_h2 : HasTwoOgTitles doc) :
    ∃ card, FetchPreview env text now = ⟨some card, none, [extractLastURL text]⟩ ∧
      ∀ e, lastMeta doc "og:title".toList = some e → e.content ≠ [] →
        card.Title = e.content := by
  refine ⟨_, FetchPreview_of_fetches env text now doc h, ?_⟩
  intro e he hc
  rw [buildCard_Title, he]
  simp [hc]

theorem FetchPreview_card_Title_last_witness :
    Fetches (exampleEnv okResponse docTwoTitlesFilled) "http://a.example/x".toList
      docTwoTitlesFilled ∧
    HasTwoOgTitles docTwoTitlesFilled ∧
    ∃ card, FetchPreview (exampleEnv okResponse docTwoTitlesFilled) "http://a.example/x".toList 0
        = ⟨some card, none, ["http://a.example/x".toList]⟩ ∧
      card.Title = "B".toList := by
  have hf := exampleEnv_fetches docTwoTitlesFilled "http://a.example/x".toList (by decide)
  have h2 : HasTwoOgTitles docTwoTitlesFilled :=
    ⟨ogMeta "og:title" "A", ogMeta "og:title" "B", by decide, by decide, by decide, by decide,
      by decide⟩
  obtain ⟨card, h1, h3⟩ :=
    FetchPreview_card_Title_last _ "http://a.example/x".toList 0 docTwoTitlesFilled hf h2
  have he : extractLastURL "http://a.example/x".toList = "http://a.example/x".toList := by
    decide
  exact ⟨hf, h2, card, by rw [h1, he],
    by rw [h3 (ogMeta "og:title" "B") (by decide) (by decide)]; decide⟩

/-- C6, counterexample: for a document without `og:title` and with two `title` elements, one in
the head and one inside an inline `svg`, the title of the card is the concatenation
`Head TitleSvg Title`, which is the text content of neither `title` element. -/
theorem FetchPreview_title_two_title_elements :
    FetchPreview (exampleEnv okResponse docTwoTitleElements) "http://a.example/x".toList 0 =
      ⟨some ⟨"01".toList, "http://a.example/x".toList, "Head TitleSvg Title".toList, [], [], [],
        []⟩, none, ["http://a.example/x".toList]⟩ ∧
    lastMeta docTwoTitleElements "og:title".toList = none ∧
    docTwoTitleElements.titles = [titleElement "Head Title", titleElement "Svg Title"] ∧
    ¬ TitleIsTitleElementText docTwoTitleElements
        ⟨"01".toList, "http://a.example/x".toList, "Head TitleSvg Title".toList, [], [], [],
          []⟩ := by
  refine ⟨by decide, by decide, by decide, ?_⟩
  rintro ⟨t, ht, h⟩
  have hd : docTwoTitleElements.titles = [titleElement "Head Title", titleElement "Svg Title"] :=
    by decide
  rw [hd] at ht
  simp only [List.mem_cons, List.mem_singleton, List.not_mem_nil, or_false] at ht
  rcases ht with rfl | rfl
  · exact absurd h (by decide)
  · exact absurd h (by decide)

/-- C6, amended: on a successful call the `title` fallback is applied exactly when the title is
still empty after the walk: without an `og:title` element, or when the last one has empty
content, the title of the card is the combined text content of all `title` elements of the
document, in document order (the text of the one `title` element when there is exactly one, the
empty string when there is none); when the last `og:title` has non-empty content the title is
that content, for every document with the same `meta` elements. -/
theorem FetchPreview_card_Title_fallback (env : Env) (text : GoString) (now : Nat)
    (doc : Document) (h : Fetches env text doc) :
    ∃ card, FetchPreview env text now = ⟨some card, none, [extractLastURL text]⟩ ∧
      card.Title =
        (if (walkMeta (initialCard (extractLastURL text) (env.NewULIDFromTime now)) doc).Title
            = [] then Selection.Text doc.titles
         else (walkMeta (initialCard (extractLastURL text) (env.NewULIDFromTime now)) doc).Title)
      ∧ (lastMeta doc "og:title".toList = none → card.Title = Selection.Text doc.titles) ∧
      (∀ e, lastMeta doc "og:title".toList = some e → e.content = [] →
        card.Title = Selection.Text doc.titles) ∧
      Selection.Text doc.titles = (doc.titles.map Element.text).flatten ∧
      (∀ t, doc.titles = [t] → Selection.Text doc.titles = t.text) ∧
      (doc.titles = [] → Selection.Text doc.titles = []) ∧
      (∀ e, lastMeta doc "og:title".toList = some e → e.content ≠ [] →
        card.Title = e.content ∧
        ∀ doc2 : Document, doc2.metas = doc.metas →
          (buildCard (extractLastURL text) (env.NewULIDFromTime now) doc2).Title
            = e.content) := by
  refine ⟨_, FetchPreview_of_fetches env text now doc h, ?_, ?_, ?_, rfl, ?_, ?_, ?_⟩
  · rw [buildCard_Title, walkMeta_Title]; rfl
  · intro he
    rw [buildCard_Title, he]; rfl
  · intro e he hc
    rw [buildCard_Title, he]
    simp [hc]
  · intro t ht
    rw [ht]
    simp [Selection.Text]
  · intro ht
    rw [ht]
    rfl
  · intro e he hc
    refine ⟨by rw [buildCard_Title, he]; simp [hc], ?_⟩
    intro doc2 h2
    have he2 : lastMeta doc2 "og:title".toList = some e := by
      unfold lastMeta at he ⊢
      rw [h2]; exact he
    rw [buildCard_Title, he2]
    simp [hc]

theorem FetchPreview_card_Title_fallback_witness :
    Fetches (exampleEnv okResponse docTitleOnly) "http://a.example/x".toList docTitleOnly ∧
    ∃ card, FetchPreview (exampleEnv okResponse docTitleOnly) "http://a.example/x".toList 0
        = ⟨some card, none, ["http://a.example/x".toList]⟩ ∧
      card.Title = "Page Title".toList := by
  have hf := exampleEnv_fetches docTitleOnly "http://a.example/x".toList (by decide)
  obtain ⟨card, h1, -, h3, -, -, -, -, -⟩ :=
    FetchPreview_card_Title_fallback _ "http://a.example/x".toList 0 docTitleOnly hf
  have he : extractLastURL "http://a.example/x".toList = "http://a.example/x".toList := by
    decide
  exact ⟨hf, card, by rw [h1, he], by rw [h3 (by decide)]; decide⟩

/-- C7: on a successful call, the description of the card is the content of the last
`og:description` element when that content is not empty; otherwise it is the `content` attribute
of the first element selected by `meta[name='description']` when that attribute is present, and
the empty string when no element is selected or the element has no `content` attribute. -/
theorem FetchPreview_card_Description (env : Env) (text : GoString) (now : Nat) (doc : Document)
    (h : Fetches env text doc) :
    ∃ card, FetchPreview env text now = ⟨some card, none, [extractLastURL text]⟩ ∧
      (∀ e, lastMeta doc "og:description".toList = some e → e.content ≠ [] →
        card.Description = e.content) ∧
      ((lastMeta doc "og:description".toList = none ∨
          ∃ e, lastMeta doc "og:description".toList = some e ∧ e.content = []) →
        (doc.descriptions = [] → card.Description = []) ∧
        (∀ d ds, doc.descriptions = d :: ds →
          (∀ v, d.Attr "content".toList = (v, true) → card.Description = v) ∧
          ((d.Attr "content".toList).2 = false → card.Description = []))) := by
  refine ⟨_, FetchPreview_of_fetches env text now doc h, ?_, ?_⟩
  · intro e he hc
    rw [buildCard_Description, he]
    simp [hc]
  · intro hw
    have hw2 : ((lastMeta doc "og:description".toList).map Element.content).getD [] = [] := by
      rcases hw with hw | ⟨e, he, hc⟩
      · rw [hw]; rfl
      · rw [he]; simpa using hc
    refine ⟨?_, ?_⟩
    · intro hd
      rw [buildCard_Description, if_pos hw2, hd]
      simp [Selection.Attr]
    · intro d ds hd
      refine ⟨?_, ?_⟩
      · intro v hv
        rw [buildCard_Description, if_pos hw2, hd]
        simp only [Selection.Attr, hv, if_true]
      · intro hv
        rw [buildCard_Description, if_pos hw2, hd]
        simp only [Selection.Attr, hv]
        simp

theorem FetchPreview_card_Description_witness :
    Fetches (exampleEnv okResponse docDescription) "http://a.example/x".toList docDescription ∧
    ∃ card, FetchPreview (exampleEnv okResponse docDescription) "http://a.example/x".toList 0
        = ⟨some card, none, ["http://a.example/x".toList]⟩ ∧
      card.Description = "plain".toList := by
  have hf := exampleEnv_fetches docDescription "http://a.example/x".toList (by decide)
  obtain ⟨card, h1, -, h3⟩ :=
    FetchPreview_card_Description _ "http://a.example/x".toList 0 docDescription hf
  have he : extractLastURL "http://a.example/x".toList = "http://a.example/x".toList := by
    decide
  exact ⟨hf, card, by rw [h1, he],
    ((h3 (Or.inr ⟨ogMeta "og:description" "", by decide, by decide⟩)).2
      (namedMeta "description" "plain") [] (by decide)).1 _ (by decide)⟩

/-- C8: on a successful call, each of `Type`, `Image` and `ProviderName` is the content of the
last `meta` element, in document order, whose `property` is `og:type`, `og:image` or
`og:site_name` respectively, and the empty string when the document has no such element; the
content of an element without a `content` attribute is the empty string. -/
theorem FetchPreview_card_Type_Image_ProviderName (env : Env) (text : GoString) (now : Nat)
    (doc : Document) (h : Fetches env text doc) :
    ∃ card, FetchPreview env text now = ⟨some card, none, [extractLastURL text]⟩ ∧
      (∀ e, lastMeta doc "og:type".toList = some e → card.Type_ = e.content) ∧
      (lastMeta doc "og:type".toList = none → card.Type_ = []) ∧
      (∀ e, lastMeta doc "og:image".toList = some e → card.Image = e.content) ∧
      (lastMeta doc "og:image".toList = none → card.Image = []) ∧
      (∀ e, lastMeta doc "og:site_name".toList = some e → card.ProviderName = e.content) ∧
      (lastMeta doc "og:site_name".toList = none → card.ProviderName = []) ∧
      (∀ e : Element, e.attrs.find? (fun a => a.1 == "content".toList) = none →
        e.content = []) := by
  obtain ⟨b1, b2, b3⟩ := buildCard_rest (extractLastURL text) (env.NewULIDFromTime now) doc
  refine ⟨_, FetchPreview_of_fetches env text now doc h, ?_, ?_, ?_, ?_, ?_, ?_, ?_⟩
  · intro e he; rw [b1, he]; rfl
  · intro he; rw [b1, he]; rfl
  · intro e he; rw [b2, he]; rfl
  · intro he; rw [b2, he]; rfl
  · intro e he; rw [b3, he]; rfl
  · intro he; rw [b3, he]; rfl
  · intro e he
    simp only [Element.content, Element.Attr, he]

theorem FetchPreview_card_Type_Image_ProviderName_witness :
    Fetches (exampleEnv okResponse docDescription) "http://a.example/x".toList docDescription ∧
    ∃ card, FetchPreview (exampleEnv okResponse docDescription) "http://a.example/x".toList 0
        = ⟨some card, none, ["http://a.example/x".toList]⟩ ∧
      card.Type_ = "article".toList ∧ card.Image = "http://a.example/i.png".toList ∧
      card.ProviderName = "Example".toList := by
  have hf := exampleEnv_fetches docDescription "http://a.example/x".toList (by decide)
  obtain ⟨card, h1, h2, -, h4, -, h6, -, -⟩ :=
    FetchPreview_card_Type_Image_ProviderName _ "http://a.example/x".toList 0 docDescription hf
  have he : extractLastURL "http://a.example/x".toList = "http://a.example/x".toList := by
    decide
  exact ⟨hf, card, by rw [h1, he],
    by rw [h2 (ogMeta "og:type" "article") (by decide)]; decide,
    by rw [h4 (ogMeta "og:image" "http://a.example/i.png") (by decide)]; decide,
    by rw [h6 (ogMeta "og:site_name" "Example") (by decide)]; decide⟩

/-! ## Failures and rejected texts -/

/-- C9: for a text with an extractable link that passes the validator, and a response whose
status code is not 200, `FetchPreview` returns no Card and an error whose message is
`unexpected status: ` followed by the status line of the response, whatever the body of the
response and whatever the parser would make of it; the one GET request has been issued. -/
theorem FetchPreview_non200 (env : Env) (text : GoString) (now : Nat) (parsed : URL)
    (resp : Response) (hl : extractLastURL text ≠ [])
    (hp : env.ParseRequestURI (extractLastURL text) = .ok parsed)
    (hs : parsed.Scheme = "http".toList ∨ parsed.Scheme = "https".toList)
    (hg : env.Get (extractLastURL text) = .ok resp) (hc : resp.StatusCode ≠ 200) :
    FetchPreview env text now =
      ⟨none, some (NewErrorInternalError ("unexpected status: ".toList ++ resp.Status)),
        [extractLastURL text]⟩ ∧
    (NewErrorInternalError ("unexpected status: ".toList ++ resp.Status)).message =
      "unexpected status: ".toList ++ resp.Status := by
  have hs2 : ¬ (parsed.Scheme ≠ "http".toList ∧ parsed.Scheme ≠ "https".toList) := by
    rintro ⟨n1, n2⟩
    rcases hs with hs | hs
    · exact n1 hs
    · exact n2 hs
  refine ⟨?_, rfl⟩
  unfold FetchPreview
  simp only [hl, if_false, hp, if_neg hs2, hg, ne_eq, hc, not_false_eq_true, if_true]

theorem FetchPreview_non200_witness :
    FetchPreview (exampleEnv notFoundResponse docEmptyOgUrl) "see http://a.example/x".toList 0 =
      ⟨none, some (NewErrorInternalError "unexpected status: 404 Not Found".toList),
        ["http://a.example/x".toList]⟩ := by
  have h := (FetchPreview_non200 (exampleEnv notFoundResponse docEmptyOgUrl)
    "see http://a.example/x".toList 0 ⟨"http".toList, "a.example".toList⟩ notFoundResponse
    (by decide) rfl (Or.inl rfl) rfl (by decide)).1
  have he : extractLastURL "see http://a.example/x".toList = "http://a.example/x".toList := by
    decide
  rw [h, he]
  rfl

/-- C10, counterexample: for the texts `ftp://a.example/x`, `a.example/x` and
`javascript:alert(1)` the call returns no error: the outcome is the no-link outcome. -/
theorem FetchPreview_ftp_no_error :
    (FetchPreview (exampleEnv okResponse docEmptyOgUrl) "ftp://a.example/x".toList 0).err = none ∧
    (FetchPreview (exampleEnv okResponse docEmptyOgUrl) "a.example/x".toList 0).err = none ∧
    (FetchPreview (exampleEnv okResponse docEmptyOgUrl) "javascript:alert(1)".toList 0).err
      = none := by
  decide

theorem not_containsUrl_of_class (s : GoString) (hs : ∀ c ∈ s, isUrlChar c = true) :
    ¬ ContainsUrl s := by
  rintro ⟨pre, u, post, he, run, -, -, hu⟩
  have hmem : ':' ∈ s := by
    rw [he]
    rcases hu with rfl | rfl <;> simp
  exact absurd (hs ':' hmem) (by decide)

/-- C10, amended: a text that consists of `ftp://` followed by class characters, or of class
characters only (no scheme), or the text `javascript:alert(1)`, has no extractable link:
`FetchPreview` returns no Card and no error, and issues no GET request. -/
theorem FetchPreview_other_scheme_noLink (env : Env) (now : Nat) (s : GoString)
    (hs : ∀ c ∈ s, isUrlChar c = true) :
    FetchPreview env ("ftp://".toList ++ s) now = ⟨none, none, []⟩ ∧
    FetchPreview env s now = ⟨none, none, []⟩ ∧
    FetchPreview env "javascript:alert(1)".toList now = ⟨none, none, []⟩ := by
  have h0 : findFirst s = none := (findFirst_eq_none_iff s).2 (not_containsUrl_of_class s hs)
  refine ⟨?_, ?_, ?_⟩
  · apply FetchPreview_noLink
    rw [extractLastURL_eq_nil_iff, ← findFirst_eq_none_iff]
    simp [findFirst, matchHere, lit, h0]
  · apply FetchPreview_noLink
    rw [extractLastURL_eq_nil_iff]
    exact not_containsUrl_of_class s hs
  · apply FetchPreview_noLink
    decide

theorem FetchPreview_other_scheme_noLink_witness :
    FetchPreview (exampleEnv okResponse docEmptyOgUrl) "ftp://a.example/x".toList 0
      = ⟨none, none, []⟩ ∧
    FetchPreview (exampleEnv okResponse docEmptyOgUrl) "a.example/x".toList 0
      = ⟨none, none, []⟩ ∧
    FetchPreview (exampleEnv okResponse docEmptyOgUrl) "javascript:alert(1)".toList 0
      = ⟨none, none, []⟩ :=
  FetchPreview_other_scheme_noLink (exampleEnv okResponse docEmptyOgUrl) 0 "a.example/x".toList
    (by decide)

/-! ## The URL selector: shape and maximality of the link -/

/-- C15: a non-empty result of `extractLastURL` is maximal: at the occurrence that the scan
selects, the result is followed by the end of the text or by a character outside the class
(and nothing after it matches the pattern). -/
theorem extractLastURL_maximal (text : GoString) (h : extractLastURL text ≠ []) :
    ∃ pre post, text = pre ++ extractLastURL text ++ post ∧
      (post = [] ∨ ∃ c rest, post = c :: rest ∧ isUrlChar c = false) ∧
      ¬ ContainsUrl post := by
  obtain ⟨pre, post, e1, -, e3, e4⟩ :=
    findAllLoop_getLast _ text _ (Nat.le_refl _) (extractLastURL_getLast text h)
  refine ⟨pre, post, e1, ?_, e4⟩
  cases post with
  | nil => exact Or.inl rfl
  | cons c rest => exact Or.inr ⟨c, rest, rfl, e3 c rfl⟩

theorem extractLastURL_maximal_witness :
    extractLastURL "see http://a.example/x.".toList = "http://a.example/x.".toList ∧
    ∃ pre post, "see http://a.example/x.".toList
        = pre ++ extractLastURL "see http://a.example/x.".toList ++ post ∧
      (post = [] ∨ ∃ c rest, post = c :: rest ∧ isUrlChar c = false) ∧
      ¬ ContainsUrl post :=
  ⟨by decide, extractLastURL_maximal "see http://a.example/x.".toList (by decide)⟩

theorem extractLastURL_isUrlMatch (text : GoString) (h : extractLastURL text ≠ []) :
    (∃ pre post, text = pre ++ extractLastURL text ++ post) ∧
      IsUrlMatch (extractLastURL text) := by
  obtain ⟨pre, post, e1, e2, -, -⟩ :=
    findAllLoop_getLast _ text _ (Nat.le_refl _) (extractLastURL_getLast text h)
  exact ⟨⟨pre, post, e1⟩, e2⟩

theorem schemeOf_isUrlMatch (u : GoString) (h : IsUrlMatch u) :
    schemeOf u = "http".toList ∨ schemeOf u = "https".toList := by
  obtain ⟨run, -, -, hu⟩ := h
  rcases hu with rfl | rfl
  · left; simp [schemeOf, List.takeWhile]
  · right; simp [schemeOf, List.takeWhile]

/-- The error of the branch `unsupported scheme` is returned only on that branch. -/
theorem FetchPreview_err_unsupported (env : Env) (text : GoString) (now : Nat) (s : GoString)
    (h : (FetchPreview env text now).err =
      some (NewErrorInternalError ("unsupported scheme: ".toList ++ s))) :
    TakesUnsupportedScheme env text := by
  unfold FetchPreview at h
  by_cases hl : extractLastURL text = []
  · simp [hl] at h
  · simp only [hl, if_false] at h
    cases hp : env.ParseRequestURI (extractLastURL text) with
    | error e => simp [hp, NewErrorInternalError] at h
    | ok parsed =>
      simp only [hp] at h
      by_cases hs : parsed.Scheme ≠ "http".toList ∧ parsed.Scheme ≠ "https".toList
      · exact ⟨hl, parsed, hp, hs.1, hs.2⟩
      · rw [if_neg hs] at h
        cases hg : env.Get (extractLastURL text) with
        | error e => simp [hg, NewErrorInternalError] at h
        | ok resp =>
          simp only [hg] at h
          by_cases hc : resp.StatusCode ≠ 200
          · rw [if_pos hc] at h
            simp [NewErrorInternalError] at h
          · rw [if_neg hc] at h
            cases hd : env.NewDocumentFromReader resp.Body with
            | error e => simp [hd, NewErrorInternalError] at h
            | ok doc => simp [hd] at h

/-- C14: a non-empty result of `extractLastURL` is a contiguous substring of the text that
consists of `http://` or `https://` and one or more class characters, so its scheme is `http` or
`https`; with a parser that reports the scheme of the link, the scheme check of `FetchPreview`
never fails: the branch `unsupported scheme` is not taken and its error is never returned. -/
theorem extractLastURL_shape_scheme (env : Env) (text : GoString) (now : Nat) :
    (extractLastURL text ≠ [] →
      (∃ pre post, text = pre ++ extractLastURL text ++ post) ∧
      IsUrlMatch (extractLastURL text) ∧
      (schemeOf (extractLastURL text) = "http".toList ∨
        schemeOf (extractLastURL text) = "https".toList)) ∧
    (ReportsScheme env →
      ¬ TakesUnsupportedScheme env text ∧
      ∀ s, (FetchPreview env text now).err ≠
        some (NewErrorInternalError ("unsupported scheme: ".toList ++ s))) := by
  have key : ReportsScheme env → ¬ TakesUnsupportedScheme env text := by
    rintro hr ⟨hl, parsed, hp, n1, n2⟩
    have hm := (extractLastURL_isUrlMatch text hl).2
    have hs := hr _ parsed hm hp
    rcases schemeOf_isUrlMatch _ hm with h1 | h1
    · exact n1 (hs.trans h1)
    · exact n2 (hs.trans h1)
  refine ⟨?_, ?_⟩
  · intro hl
    obtain ⟨h1, h2⟩ := extractLastURL_isUrlMatch text hl
    exact ⟨h1, h2, schemeOf_isUrlMatch _ h2⟩
  · intro hr
    exact ⟨key hr, fun s hs => key hr (FetchPreview_err_unsupported env text now s hs)⟩

/-! ## The validator and the host -/

theorem stdEnv_reportsScheme (get : GoString → Except GoError Response) (doc : Document) :
    ReportsScheme (stdEnv get doc) := by
  intro link parsed _ hp
  simp only [stdEnv, parseSelectorLink, Except.ok.injEq] at hp
  rw [← hp]

theorem extractLastURL_shape_scheme_witness :
    IsUrlMatch (extractLastURL "see http://a.example/x".toList) ∧
    ReportsScheme (stdEnv (fun _ => .ok okResponse) docEmptyOgUrl) ∧
    ¬ TakesUnsupportedScheme (stdEnv (fun _ => .ok okResponse) docEmptyOgUrl)
      "see http://a.example/x".toList :=
  ⟨((extractLastURL_shape_scheme (stdEnv (fun _ => .ok okResponse) docEmptyOgUrl)
      "see http://a.example/x".toList 0).1 (by decide)).2.1,
    stdEnv_reportsScheme _ _,
    ((extractLastURL_shape_scheme (stdEnv (fun _ => .ok okResponse) docEmptyOgUrl)
      "see http://a.example/x".toList 0).2 (stdEnv_reportsScheme _ _)).1⟩

theorem FetchPreview_requests_of_valid (env : Env) (text : GoString) (now : Nat) (parsed : URL)
    (hl : extractLastURL text ≠ [])
    (hp : env.ParseRequestURI (extractLastURL text) = .ok parsed)
    (hs : parsed.Scheme = "http".toList ∨ parsed.Scheme = "https".toList) :
    (FetchPreview env text now).requests = [extractLastURL text] := by
  have hs2 : ¬ (parsed.Scheme ≠ "http".toList ∧ parsed.Scheme ≠ "https".toList) := by
    rintro ⟨n1, n2⟩
    rcases hs with hs | hs
    · exact n1 hs
    · exact n2 hs
  unfold FetchPreview
  simp only [hl, if_false, hp, if_neg hs2]
  split
  · rfl
  · split
    · rfl
    · split <;> rfl

/-- C11, counterexample: the selector produces `http:///x`, whose host is empty; the link passes
the validator, the GET request is issued, and the error that comes back is the one of the HTTP
client. -/
theorem FetchPreview_empty_host_fetched :
    extractLastURL "http:///x".toList = "http:///x".toList ∧
    hostOf "http:///x".toList = [] ∧
    FetchPreview (stdEnv (fun _ => .error noHostError) docEmptyOgUrl) "http:///x".toList 0 =
      ⟨none, some (NewErrorInternalError ("request failed: ".toList ++ sprintfW noHostError)),
        ["http:///x".toList]⟩ ∧
    ¬ ValidationRejects
      (FetchPreview (stdEnv (fun _ => .error noHostError) docEmptyOgUrl) "http:///x".toList 0) := by
  refine ⟨by decide, by decide, by decide, ?_⟩
  rintro ⟨-, -, h⟩
  exact absurd h (by decide)

/-- C11, amended: the validator checks that the link parses and that its scheme is `http` or
`https`, and does not inspect the host: for a link whose parse has an empty host, the GET
request for the link is issued, and the outcome is not a rejection by the validator. -/
theorem FetchPreview_host_unchecked (env : Env) (text : GoString) (now : Nat) (parsed : URL)
    (hl : extractLastURL text ≠ [])
    (hp : env.ParseRequestURI (extractLastURL text) = .ok parsed)
    (hs : parsed.Scheme = "http".toList ∨ parsed.Scheme = "https".toList)
    (_hh : parsed.Host = []) :
    (FetchPreview env text now).requests = [extractLastURL text] ∧
    ¬ ValidationRejects (FetchPreview env text now) := by
  have hr := FetchPreview_requests_of_valid env text now parsed hl hp hs
  refine ⟨hr, ?_⟩
  rintro ⟨-, -, h⟩
  rw [hr] at h
  exact absurd h (by simp)

theorem FetchPreview_host_unchecked_witness :
    (FetchPreview (stdEnv (fun _ => .ok okResponse) docEmptyOgUrl) "http://?a=b".toList
      0).requests = ["http://?a=b".toList] ∧
    ¬ ValidationRejects
      (FetchPreview (stdEnv (fun _ => .ok okResponse) docEmptyOgUrl) "http://?a=b".toList 0) := by
  have he : extractLastURL "http://?a=b".toList = "http://?a=b".toList := by decide
  have h := FetchPreview_host_unchecked (stdEnv (fun _ => .ok okResponse) docEmptyOgUrl)
    "http://?a=b".toList 0 ⟨"http".toList, []⟩ (by decide) (by rw [he]; rfl) (Or.inl rfl) rfl
  rw [he] at h
  exact h

/-! ## The messages of the wrapped causes -/

/-- The message of a failed GET request, for every cause: the literal text, then the bad-verb
form that `Sprintf` writes for `%w`. -/
theorem FetchPreview_request_failed (env : Env) (text : GoString) (now : Nat) (parsed : URL)
    (e : GoError) (hl : extractLastURL text ≠ [])
    (hp : env.ParseRequestURI (extractLastURL text) = .ok parsed)
    (hs : parsed.Scheme = "http".toList ∨ parsed.Scheme = "https".toList)
    (hg : env.Get (extractLastURL text) = .error e) :
    FetchPreview env text now =
      ⟨none, some (NewErrorInternalError ("request failed: %!w(".toList ++ e.typeName ++
        "=".toList ++ e.repr ++ ")".toList)), [extractLastURL text]⟩ := by
  have hs2 : ¬ (parsed.Scheme ≠ "http".toList ∧ parsed.Scheme ≠ "https".toList) := by
    rintro ⟨n1, n2⟩
    rcases hs with hs | hs
    · exact n1 hs
    · exact n2 hs
  unfold FetchPreview
  simp only [hl, if_false, hp, if_neg hs2, hg, sprintfW]
  simp

/-- C13, at the failing inputs: when the GET request fails with a refused connection, and when
the body cannot be read, the message of the returned error is the literal text followed by the
bad-verb form `%!w(type=value)`, not by the message of the cause. -/
theorem FetchPreview_cause_text_lost :
    FetchPreview (stdEnv (fun _ => .error connectionRefused) docEmptyOgUrl)
        "see http://a.example/x".toList 0 =
      ⟨none,
        some ⟨"request failed: %!w(*url.Error=&\x7bGet http://a.example/x 0xc0000a2050\x7d)".toList,
          500⟩,
        ["http://a.example/x".toList]⟩ ∧
    "request failed: %!w(*url.Error=&\x7bGet http://a.example/x 0xc0000a2050\x7d)".toList ≠
      "request failed: ".toList ++ connectionRefused.msg ∧
    FetchPreview (brokenBodyEnv unexpectedEOF) "see http://a.example/x".toList 0 =
      ⟨none,
        some ⟨"failed to parse HTML: %!w(*errors.errorString=&\x7bunexpected EOF\x7d)".toList,
          500⟩,
        ["http://a.example/x".toList]⟩ ∧
    "failed to parse HTML: %!w(*errors.errorString=&\x7bunexpected EOF\x7d)".toList ≠
      "failed to parse HTML: ".toList ++ unexpectedEOF.msg := by
  refine ⟨by decide, by decide, by decide, by decide⟩

/-! ## Determinism -/

theorem applyMeta_ID (c : Card) (m : Element) : (applyMeta c m).ID = c.ID := by
  simp only [applyMeta]
  split_ifs <;> rfl

theorem walkMeta_ID (c : Card) (doc : Document) : (walkMeta c doc).ID = c.ID := by
  unfold walkMeta
  generalize doc.Find (.tag "meta".toList) = ms
  induction ms generalizing c with
  | nil => rfl
  | cons m ms ih => rw [List.foldl_cons, ih, applyMeta_ID]

theorem buildCard_ID (link ulid : GoString) (doc : Document) :
    (buildCard link ulid doc).ID = ulid := by
  have h1 : ∀ c : Card, (titleFallback c doc).ID = c.ID := by
    intro c; unfold titleFallback; split_ifs <;> rfl
  have h2 : ∀ c : Card, (descriptionFallback c doc).ID = c.ID := by
    intro c; unfold descriptionFallback; simp only; split_ifs <;> rfl
  unfold buildCard
  simp only
  rw [h2, h1, walkMeta_ID]

/-- The fields of the card other than the identifier do not depend on the identifier. -/
theorem buildCard_fields_ulid (link u1 u2 : GoString) (doc : Document) :
    (buildCard link u1 doc).URL = (buildCard link u2 doc).URL ∧
    (buildCard link u1 doc).Title = (buildCard link u2 doc).Title ∧
    (buildCard link u1 doc).Description = (buildCard link u2 doc).Description ∧
    (buildCard link u1 doc).Type_ = (buildCard link u2 doc).Type_ ∧
    (buildCard link u1 doc).Image = (buildCard link u2 doc).Image ∧
    (buildCard link u1 doc).ProviderName = (buildCard link u2 doc).ProviderName := by
  obtain ⟨a1, a2, a3⟩ := buildCard_rest link u1 doc
  obtain ⟨b1, b2, b3⟩ := buildCard_rest link u2 doc
  refine ⟨?_, ?_, ?_, ?_, ?_, ?_⟩
  · rw [buildCard_URL, buildCard_URL]
  · rw [buildCard_Title, buildCard_Title]
  · rw [buildCard_Description, buildCard_Description]
  · rw [a1, b1]
  · rw [a2, b2]
  · rw [a3, b3]

/-- C12: two calls with the same text, the same URL parser, the same HTTP responses and the same
document parser, at any two timestamps and with any two identifier generators, return the same
error, issue the same requests, and agree on whether a Card is returned; when both return a
Card, the two Cards have the same URL, Title, Description, Type, Image and ProviderName, and
the identifier of each is the one generated from its timestamp. -/
theorem FetchPreview_deterministic (env1 env2 : Env) (text : GoString) (now1 now2 : Nat)
    (hp : env1.ParseRequestURI = env2.ParseRequestURI) (hg : env1.Get = env2.Get)
    (hd : env1.NewDocumentFromReader = env2.NewDocumentFromReader) :
    (FetchPreview env1 text now1).err = (FetchPreview env2 text now2).err ∧
    (FetchPreview env1 text now1).requests = (FetchPreview env2 text now2).requests ∧
    ((FetchPreview env1 text now1).card = none ↔ (FetchPreview env2 text now2).card = none) ∧
    ∀ c1 c2, (FetchPreview env1 text now1).card = some c1 →
      (FetchPreview env2 text now2).card = some c2 →
      c1.URL = c2.URL ∧ c1.Title = c2.Title ∧ c1.Description = c2.Description ∧
      c1.Type_ = c2.Type_ ∧ c1.Image = c2.Image ∧ c1.ProviderName = c2.ProviderName ∧
      c1.ID = env1.NewULIDFromTime now1 ∧ c2.ID = env2.NewULIDFromTime now2 := by
  unfold FetchPreview
  rw [← hp, ← hg, ← hd]
  by_cases hl : extractLastURL text = []
  · simp [hl]
  · simp only [hl, if_false]
    cases env1.ParseRequestURI (extractLastURL text) with
    | error e => simp
    | ok parsed =>
      simp only
      by_cases hs : parsed.Scheme ≠ "http".toList ∧ parsed.Scheme ≠ "https".toList
      · rw [if_pos hs, if_pos hs]; simp
      · rw [if_neg hs, if_neg hs]
        cases env1.Get (extractLastURL text) with
        | error e => simp
        | ok resp =>
          simp only
          by_cases hc : resp.StatusCode ≠ 200
          · rw [if_pos hc, if_pos hc]; simp
          · rw [if_neg hc, if_neg hc]
            cases env1.NewDocumentFromReader resp.Body with
            | error e => simp
            | ok doc =>
              simp only [true_and, Option.some.injEq, reduceCtorEq]
              intro c1 c2 h1 h2
              subst h1 h2
              obtain ⟨f1, f2, f3, f4, f5, f6⟩ := buildCard_fields_ulid (extractLastURL text)
                (env1.NewULIDFromTime now1) (env2.NewULIDFromTime now2) doc
              exact ⟨f1, f2, f3, f4, f5, f6, buildCard_ID _ _ _, buildCard_ID _ _ _⟩

theorem FetchPreview_deterministic_witness :
    (FetchPreview (exampleEnv okResponse docDescription) "http://a.example/x".toList 1).card
      = some ⟨"01".toList, "http://a.example/x".toList, [], "plain".toList, "article".toList,
          "http://a.example/i.png".toList, "Example".toList⟩ ∧
    (FetchPreview (exampleEnvWithULID okResponse docDescription "02".toList)
        "http://a.example/x".toList 2).card
      = some ⟨"02".toList, "http://a.example/x".toList, [], "plain".toList, "article".toList,
          "http://a.example/i.png".toList, "Example".toList⟩ ∧
    (FetchPreview (exampleEnv okResponse docDescription) "http://a.example/x".toList 1).err =
      (FetchPreview (exampleEnvWithULID okResponse docDescription "02".toList)
        "http://a.example/x".toList 2).err :=
  ⟨by decide, by decide,
    (FetchPreview_deterministic (exampleEnv okResponse docDescription)
      (exampleEnvWithULID okResponse docDescription "02".toList) "http://a.example/x".toList 1 2
      rfl rfl rfl).1⟩

/-! ## The frame of the metadata walk -/

theorem applyMeta_other (c : Card) (m : Element) (h : isOgProperty m.property = false) :
    applyMeta c m = c := by
  simp only [isOgProperty, Bool.or_eq_false_iff, beq_eq_false_iff_ne, ne_eq,
    Element.property] at h
  obtain ⟨⟨⟨⟨⟨h1, h2⟩, h3⟩, h4⟩, h5⟩, h6⟩ := h
  simp only [applyMeta, if_neg h1, if_neg h2, if_neg h3, if_neg h4, if_neg h5, if_neg h6]

theorem filter_filter_of_imp {α : Type} (p q : α → Bool) (l : List α)
    (h : ∀ a, p a = true → q a = true) : (l.filter q).filter p = l.filter p := by
  induction l with
  | nil => rfl
  | cons a l ih =>
    by_cases hp : p a = true
    · simp [List.filter_cons, hp, h a hp, ih]
    · by_cases hq : q a = true
      · simp [List.filter_cons, hp, hq, ih]
      · simp [List.filter_cons, hp, hq, ih]

theorem foldl_applyMeta_filter (keep : Element → Bool) (ms : List Element) (c : Card)
    (h : ∀ m, keep m = false → ∀ c, applyMeta c m = c) :
    (ms.filter keep).foldl applyMeta c = ms.foldl applyMeta c := by
  induction ms generalizing c with
  | nil => rfl
  | cons m ms ih =>
    by_cases hk : keep m = true
    · simp [List.filter_cons, hk, ih]
    · have hk2 : keep m = false := by simpa using hk
      simp [List.filter_cons, hk, ih, h m hk2 c]

theorem prune_metas (doc : Document) :
    doc.prune.metas = doc.metas.filter (fun e => !e.removable) := by
  simp only [Document.prune, Document.metas, Document.Find, List.filter_filter]
  apply List.filter_congr
  intro a _
  exact Bool.and_comm _ _

theorem prune_titles (doc : Document) :
    doc.prune.Find (.tag "title".toList) = doc.Find (.tag "title".toList) := by
  simp only [Document.prune, Document.Find]
  apply filter_filter_of_imp
  intro a ha
  simp only [Selector.holds, beq_iff_eq] at ha
  simp [Element.removable, ha]

theorem prune_descriptions (doc : Document) :
    doc.prune.Find (.tagAttr "meta".toList "name".toList "description".toList) =
      doc.Find (.tagAttr "meta".toList "name".toList "description".toList) := by
  simp only [Document.prune, Document.Find]
  apply filter_filter_of_imp
  intro a ha
  simp only [Element.removable, ha, Bool.not_true, Bool.and_false, Bool.not_false]

theorem buildCard_prune (link ulid : GoString) (doc : Document) :
    buildCard link ulid doc.prune = buildCard link ulid doc := by
  have hw : ∀ c, walkMeta c doc.prune = walkMeta c doc := by
    intro c
    have := prune_metas doc
    simp only [Document.metas] at this
    unfold walkMeta
    rw [this]
    apply foldl_applyMeta_filter
    intro m hm c
    apply applyMeta_other
    simp only [Element.removable, Bool.not_eq_false', Bool.and_eq_true,
      Bool.not_eq_true'] at hm
    exact hm.1.2
  unfold buildCard titleFallback descriptionFallback
  simp only [hw, prune_titles, prune_descriptions]

theorem applyMeta_own (c : Card) (m : Element) :
    (m.property = "og:title".toList → applyMeta c m = { c with Title := m.content }) ∧
    (m.property = "og:description".toList →
      applyMeta c m = { c with Description := m.content }) ∧
    (m.property = "og:type".toList → applyMeta c m = { c with Type_ := m.content }) ∧
    (m.property = "og:image".toList → applyMeta c m = { c with Image := m.content }) ∧
    (m.property = "og:url".toList →
      applyMeta c m = if m.content ≠ [] then { c with URL := m.content } else c) ∧
    (m.property = "og:site_name".toList →
      applyMeta c m = { c with ProviderName := m.content }) := by
  refine ⟨?_, ?_, ?_, ?_, ?_, ?_⟩ <;>
  · intro h
    simp only [Element.property] at h
    simp only [applyMeta, h, Element.content]
    simp

theorem property_absent (e : Element)
    (h : e.attrs.find? (fun a => a.1 == "property".toList) = none) :
    isOgProperty e.property = false := by
  simp only [Element.property, Element.Attr, h]
  decide

/-- C16: a `meta` element whose `property` is absent or is none of the six changes no field of
the card; a `meta` element with one of the six properties changes only the field of that
property; so the document without the `meta` elements that have none of the six properties and
are not selected by `meta[name='description']` gives the same card, and two successful calls,
one on the document and one on the document without these elements, return Cards with the same
URL, Title, Description, Type, Image and ProviderName. -/
theorem metaWalk_frame :
    (∀ (c : Card) (m : Element), isOgProperty m.property = false → applyMeta c m = c) ∧
    (∀ e : Element, e.attrs.find? (fun a => a.1 == "property".toList) = none →
      isOgProperty e.property = false) ∧
    (∀ (c : Card) (m : Element),
      (m.property = "og:title".toList → applyMeta c m = { c with Title := m.content }) ∧
      (m.property = "og:description".toList →
        applyMeta c m = { c with Description := m.content }) ∧
      (m.property = "og:type".toList → applyMeta c m = { c with Type_ := m.content }) ∧
      (m.property = "og:image".toList → applyMeta c m = { c with Image := m.content }) ∧
      (m.property = "og:url".toList →
        applyMeta c m = if m.content ≠ [] then { c with URL := m.content } else c) ∧
      (m.property = "og:site_name".toList →
        applyMeta c m = { c with ProviderName := m.content })) ∧
    (∀ (link ulid : GoString) (doc : Document),
      buildCard link ulid doc.prune = buildCard link ulid doc) ∧
    (∀ (env1 env2 : Env) (text : GoString) (now1 now2 : Nat) (doc : Document),
      Fetches env1 text doc → Fetches env2 text doc.prune →
      ∃ c1 c2, (FetchPreview env1 text now1).card = some c1 ∧
        (FetchPreview env2 text now2).card = some c2 ∧
        c1.URL = c2.URL ∧ c1.Title = c2.Title ∧ c1.Description = c2.Description ∧
        c1.Type_ = c2.Type_ ∧ c1.Image = c2.Image ∧ c1.ProviderName = c2.ProviderName) := by
  refine ⟨applyMeta_other, property_absent, applyMeta_own, buildCard_prune, ?_⟩
  intro env1 env2 text now1 now2 doc h1 h2
  refine ⟨_, _, by rw [FetchPreview_of_fetches env1 text now1 doc h1],
    by rw [FetchPreview_of_fetches env2 text now2 doc.prune h2], ?_⟩
  rw [buildCard_prune]
  exact buildCard_fields_ulid _ _ _ doc

theorem metaWalk_frame_witness :
    docWithNoise.prune =
      ⟨[ogMeta "og:title" "Hello", namedMeta "description" "plain",
        titleElement "Page Title"]⟩ ∧
    Fetches (exampleEnv okResponse docWithNoise) "http://a.example/x".toList docWithNoise ∧
    Fetches (exampleEnv okResponse docWithNoise.prune) "http://a.example/x".toList
      docWithNoise.prune ∧
    ∃ c1 c2,
      (FetchPreview (exampleEnv okResponse docWithNoise) "http://a.example/x".toList 0).card
        = some c1 ∧
      (FetchPreview (exampleEnv okResponse docWithNoise.prune) "http://a.example/x".toList
        0).card = some c2 ∧
      c1.URL = c2.URL ∧ c1.Title = c2.Title ∧ c1.Description = c2.Description ∧
      c1.Type_ = c2.Type_ ∧ c1.Image = c2.Image ∧ c1.ProviderName = c2.ProviderName :=
  have h1 := exampleEnv_fetches docWithNoise "http://a.example/x".toList (by decide)
  have h2 := exampleEnv_fetches docWithNoise.prune "http://a.example/x".toList (by decide)
  ⟨by decide, h1, h2,
    metaWalk_frame.2.2.2.2 (exampleEnv okResponse docWithNoise)
      (exampleEnv okResponse docWithNoise.prune) "http://a.example/x".toList 0 0 docWithNoise
      h1 h2⟩

end PreviewCard
